import Mathlib

/-!
# koolnet: the virtual connection `P2pConn` (src/client/p2pconn.go)

A shallow embedding of `P2pConn` and of the parts of its collaborators that
the file uses, followed by theorems about the pending-send queue, the
reference counts of pooled buffers, the relay loops, the flow controller, the
handshake and the teardown.

Conventions of the embedding.

* Go `int32` values are `Int`s kept in range by `wrap32`; `uint16`/`uint8`
  conversions are `% 65536` / `% 256`.
* A `*common.MsgBuf` that is known to be non-nil is a `MsgBuf` value; its
  identity is the field `Id`, and its reference count lives in the map
  `Sys.used`, indexed by `Id` (so aliases share one count).  The slice
  `rlist` holds `Option MsgBuf`, `none` being the nil pointer the code stores
  in it.
* A goroutine started with `go` is counted (`readLoops`, `writeLoops`), not run.
* A `select` is resolved by an explicit choice of the environment among the
  cases that are ready.
* A panic, a blocked operation and an exhausted iteration budget are the
  results `Except.error` of a `Fault`.
-/

namespace Koolnet

/-! ## Machine integers -/

/-- Two's-complement reduction of an integer to the range of Go's `int32`. -/
def wrap32 (x : Int) : Int := (x + 2147483648) % 4294967296 - 2147483648

/-- Go's conversion `uint16(x)` of an `int`. -/
def toUint16 (x : Int) : Int := x % 65536

/-- Go's conversion `uint8(x)` of an `int`. -/
def toUint8 (x : Int) : Int := x % 256

/-! ## The package `common`, as far as p2pconn.go uses it -/

/-- The frame types.  `MsgTypeNone` stands for every value that is none of the
five named ones (such as the type of a zeroed buffer). -/
inductive MsgType where
  | MsgTypeSyn
  | MsgTypeSynOk
  | MsgTypeSynErr
  | MsgTypeData
  | MsgTypeFin
  | MsgTypeNone
deriving DecidableEq

/-- The frame header `common.MsgHdr`; `type` is the Go field `Type`. -/
structure MsgHdr where
  type : MsgType
  Addr : Int
  Port : Int
  Seq : Int
deriving DecidableEq

/-- The error values of `common` and `killable` that p2pconn.go returns. -/
inductive Err where
  | ErrPromisePDying
  | ErrDying
  | ErrMsgWrite
  | ErrMsgKilled
  | ErrMsgRead
deriving DecidableEq

/-- Modelled from the spec: the pooled buffer `common.MsgBuf` (its declaration
is not in p2pconn.go).  `hdr` is the header encoded in the leading
`MsgHdrSize` bytes (`mb.Type` reads its type), `Size` the field `Size`,
`body` the bytes after the header.  The reference count is kept in `Sys.used`. -/
structure MsgBuf where
  Id : Nat
  hdr : MsgHdr
  Size : Int
  body : List Nat
deriving DecidableEq

/-- What can stop a Go function short of returning. -/
inductive Fault where
  | nilDeref
  | closedChan
  | outOfRange
  | blocked
  | noFuel
deriving DecidableEq

/-- A buffered Go channel of `*common.MsgBuf`. -/
structure Chan where
  buf : List MsgBuf
  cap : Nat
  closed : Bool
deriving DecidableEq

/-- The number of further non-blocking sends the channel accepts. -/
def Chan.room (c : Chan) : Nat := c.cap - c.buf.length

/-! ## The connection, the link and the rest of the world -/

/-- The struct `P2pConn`.  `dying` is the embedded `killable.Killable` (the
cause of the first `Kill`), `tcpClosed` the state of `tcpConn`, `in_` the
field `in`. -/
structure P2pConn where
  dying : Option Err
  tcpClosed : Bool
  innerPort : Int
  tcpPort : Int
  isProxy : Bool
  rLen : Int
  wLen : Int
  rlist : List (Option MsgBuf)
  snd : Int
  tick : Int
  wait : Int
  avg : Int
  hdr : MsgHdr
  in_ : Chan
  wMsg : Chan

/-- The link `P2pClient` as p2pconn.go sees it: its dying signal, the frames
handed to its outbound queue `wMsg`, and the number of deregistrations
(`RemoveConn`) scheduled through `GoDying`.  The values read from its counter
`waitSend` are inputs of `tcpReadLoopFor`. -/
structure P2pClient where
  dying : Bool
  wMsg : List MsgBuf
  removals : Nat

/-- One record of a call `tcpConn.Write(p)`: the slice offered and the number
of bytes the socket accepted. -/
structure WriteCall where
  offered : List Nat
  n : Nat
deriving DecidableEq

/-- The connection together with everything it acts on. -/
structure Sys where
  p : P2pConn
  p2pc : P2pClient
  clientId : Int
  used : Nat → Int
  frees : List Nat
  nextId : Nat
  readLoops : Nat
  writeLoops : Nat
  sleeps : List Int
  writes : List WriteCall
  dispatched : List MsgType

/-- Modelled from the spec: `duplicate(b)` returns an alias and increments the
count (`MsgBuf.Dup`, not in p2pconn.go). -/
def Dup (mb : MsgBuf) (s : Sys) : Sys :=
  { s with used := fun i => if i = mb.Id then s.used i + 1 else s.used i }

/-- Modelled from the spec: `release(b)` decrements the count (`MsgBuf.Free`,
not in p2pconn.go).  Every call is also recorded in `frees`. -/
def Free (mb : MsgBuf) (s : Sys) : Sys :=
  { s with used := fun i => if i = mb.Id then s.used i - 1 else s.used i,
           frees := s.frees ++ [mb.Id] }

/-- Modelled from the spec: `acquire()` returns a zeroed buffer with reference
count 1 (`common.NewMsgBuf`, not in p2pconn.go); buffers get fresh `Id`s. -/
def NewMsgBuf (s : Sys) : MsgBuf × Sys :=
  ({ Id := s.nextId, hdr := ⟨MsgType.MsgTypeNone, 0, 0, 0⟩, Size := 0, body := [] },
   { s with used := fun i => if i = s.nextId then 1 else s.used i,
            nextId := s.nextId + 1 })

/-- The deferred calls `defer mb.Free()` of a function, run at its return, last
deferred first; the list holds the most recently deferred buffer at its head. -/
def runDefers : List MsgBuf → Sys → Sys
  | [], s => s
  | mb :: rest, s => runDefers rest (Free mb s)

/-- Model of `killable.Kill`: the first cause puts the connection into the dying
state, later calls change nothing. -/
def Kill (e : Err) (s : Sys) : Sys :=
  match s.p.dying with
  | none => { s with p := { s.p with dying := some e } }
  | some _ => s

/-- Model of `P2pConn.GoDying`: one asynchronous `RemoveConn` is scheduled. -/
def GoDying (s : Sys) : Sys :=
  { s with p2pc := { s.p2pc with removals := s.p2pc.removals + 1 } }

/-! ## writeAll -/

/-- The loop `for pos, mb := range p.rlist` of `writeAll`, from position `pos`
on; `todo` is the part of the ranged slice not visited yet and `dfr` the
deferred `Free`s.  Each visited buffer is duplicated when the `select` is
entered (Go evaluates the operand of the send before choosing a case). -/
def writeAllFor : List (Option MsgBuf) → Nat → List MsgBuf → Sys → Except Fault Sys
  | [], _, dfr, s =>
      -- write complete, remove all
      .ok (runDefers dfr
        { s with p := { s.p with rlist := s.p.rlist.drop s.p.rlist.length } })
  | none :: _, _, _, _ => .error Fault.nilDeref
  | some mb :: todo, pos, dfr, s =>
      let s1 := Dup mb s
      if s1.p.wMsg.closed then .error Fault.closedChan
      else if 0 < s1.p.wMsg.room then
        let s2 := { s1 with p := { s1.p with
          wMsg := { s1.p.wMsg with buf := s1.p.wMsg.buf ++ [mb] },
          rlist := s1.p.rlist.set pos none } }
        writeAllFor todo (pos + 1) (mb :: dfr) s2
      else
        let s2 := Dup mb s1
        let s3 := { s2 with p := { s2.p with rlist := s2.p.rlist.drop pos } }
        .ok (runDefers (mb :: dfr) s3)

/-- The method `P2pConn.writeAll`. -/
def writeAll (s : Sys) : Except Fault Sys :=
  if 0 < s.p.rlist.length then writeAllFor s.p.rlist 0 [] s else .ok s

/-! ## RunFor -/

/-- The case of the `select` of `RunFor` that the scheduler takes. -/
inductive RunSel where
  | linkDying
  | selfDying
  | recv
deriving DecidableEq

/-- The method `P2pConn.RunFor`: one cycle of the dispatch loop.  The result
is the new state and the returned `error` (`none` for nil).  A case that is
not ready cannot be taken (`Fault.blocked`).  The type of every frame received
is also recorded in `dispatched`. -/
def RunFor (sel : RunSel) (s : Sys) : Except Fault (Sys × Option Err) :=
  match sel with
  | .linkDying =>
      if s.p2pc.dying then .ok (s, some Err.ErrPromisePDying) else .error Fault.blocked
  | .selfDying =>
      if s.p.dying.isSome then .ok (GoDying s, some Err.ErrDying) else .error Fault.blocked
  | .recv =>
      match s.p.in_.buf with
      | [] => if s.p.in_.closed then .ok (s, none) else .error Fault.blocked
      | mb :: rest =>
          let s1 := { s with p := { s.p with in_ := { s.p.in_ with buf := rest } },
                             dispatched := s.dispatched ++ [mb.hdr.type] }
          -- defer mb.Free()
          match mb.hdr.type with
          | .MsgTypeData =>
              let s2 := Dup mb s1
              let s3 := { s2 with p := { s2.p with rlist := s2.p.rlist ++ [some mb] } }
              match writeAll s3 with
              | .ok s4 => .ok (Free mb s4, none)
              | .error f => .error f
          | .MsgTypeSynOk =>
              -- go p.tcpReadLoop(p2pc, c)
              .ok (Free mb { s1 with readLoops := s1.readLoops + 1 }, none)
          | .MsgTypeFin => .ok (Free mb (GoDying s1), some Err.ErrMsgWrite)
          | .MsgTypeSynErr => .ok (Free mb (GoDying s1), some Err.ErrMsgWrite)
          | _ => .ok (Free mb s1, none)

/-! ## Init -/

/-- The case that a `select` sending to the link's queue `p2pc.wMsg` takes.
The send itself is always possible in the model (the link's queue is the
list of the frames handed to it); a dying case needs its signal. -/
inductive LinkSel where
  | selfDying
  | linkDying
  | send
deriving DecidableEq

/-- The method `P2pConn.Init`; `MsgHdrSize` is `common.MsgHdrSize`.  The
operand `mb.Dup()` of the send is evaluated when the `select` is entered. -/
def Init (MsgHdrSize : Int) (sel : LinkSel) (s : Sys) : Except Fault (Sys × Option Err) :=
  let s1 := { s with p := { s.p with hdr :=
    { type := MsgType.MsgTypeData, Addr := toUint8 s.clientId,
      Port := toUint16 s.p.tcpPort, Seq := toUint16 s.p.innerPort } } }
  -- go p.tcpWriteLoop(p2pc, c)
  let s2 := { s1 with writeLoops := s1.writeLoops + 1 }
  let (mb, s3) := NewMsgBuf s2
  -- defer mb.Free()
  let s4 := if s3.p.isProxy then { s3 with readLoops := s3.readLoops + 1 } else s3
  let synHdr : MsgHdr :=
    if s3.p.isProxy then
      { type := MsgType.MsgTypeSynOk, Addr := 0,
        Port := toUint16 s3.p.tcpPort, Seq := toUint16 s3.p.innerPort }
    else
      { type := MsgType.MsgTypeSyn, Addr := 0,
        Port := toUint16 s3.p.tcpPort, Seq := toUint16 s3.p.innerPort }
  let mb1 := { mb with hdr := synHdr, Size := MsgHdrSize }
  let s5 := Dup mb1 s4
  match sel with
  | .linkDying =>
      if s5.p2pc.dying then .ok (Free mb1 s5, some Err.ErrMsgKilled) else .error Fault.blocked
  | .send =>
      .ok (Free mb1 { s5 with p2pc := { s5.p2pc with wMsg := s5.p2pc.wMsg ++ [mb1] } }, none)
  | .selfDying => .error Fault.blocked

/-! ## Close -/

/-- The loop `for _, msg := range p.rlist { msg.Free() }` of `Close`; a nil
entry stops it with a panic, in the state reached. -/
def freeRlist : List (Option MsgBuf) → Sys → Sys × Option Fault
  | [], s => (s, none)
  | none :: _, s => (s, some Fault.nilDeref)
  | some mb :: rest, s => freeRlist rest (Free mb s)

/-- The loops `for msg := range ch { msg.Free() }` of `Close` over a closed
channel: every buffered entry is received and released. -/
def freeChan : List MsgBuf → Sys → Sys
  | [], s => s
  | mb :: rest, s => freeChan rest (Free mb s)

/-- The method `P2pConn.Close`.  The result is the state at the return, or the
state at the panic together with the panic. -/
def Close (s : Sys) : Sys × Option Fault :=
  let s1 := { s with p := { s.p with tcpClosed := true } }
  if s1.p.in_.closed then (s1, some Fault.closedChan)
  else
    let s2 := { s1 with p := { s1.p with in_ := { s1.p.in_ with closed := true } } }
    if s2.p.wMsg.closed then (s2, some Fault.closedChan)
    else
      let s3 := { s2 with p := { s2.p with wMsg := { s2.p.wMsg with closed := true } } }
      let s4 := freeChan s3.p.in_.buf s3
      let s5 := { s4 with p := { s4.p with in_ := { s4.p.in_ with buf := [] } } }
      let s6 := freeChan s5.p.wMsg.buf s5
      let s7 := { s6 with p := { s6.p with wMsg := { s6.p.wMsg with buf := [] } } }
      match freeRlist s7.p.rlist s7 with
      | (s8, some f) => (s8, some f)
      | (s8, none) =>
          ({ s8 with p := { s8.p with rlist := s8.p.rlist.drop s8.p.rlist.length } }, none)

/-! ## tcpReadLoopFor and tcpReadLoop -/

/-- What the environment supplies to one iteration of `tcpReadLoopFor`: the
value loaded from `p2pc.waitSend`, the two readings of `iclock()`, the result
`(n, err)` of `tcpConn.Read` with the bytes read, and the case taken by the
`select` that sends to the link. -/
structure ReadEnv where
  waitSend : Int
  now1 : Int
  now2 : Int
  n : Int
  err : Bool
  data : List Nat
  sel : LinkSel

/-- The flow-control part of `tcpReadLoopFor` (from the load of `waitSend` to
`p.tick = iclock()`).  The pacing `select` has the cases `<-p.Dying()` and
`<-time.After(avg ms)`: on a dying connection the first is ready when the
`select` is entered and is taken at once, so no sleep is performed; otherwise
the timer case is taken and the sleep is recorded in `sleeps` with its
duration.  The dying state is read when the `select` is entered. -/
def pace (e : ReadEnv) (s : Sys) : Sys :=
  let snd1 := wrap32 (e.waitSend * 80)
  let tick_diff := wrap32 (e.now1 - s.p.tick)
  let diff := wrap32 (snd1 - s.p.snd)
  let avg1 : Int :=
    if 0 < tick_diff then
      let a := Int.tdiv (wrap32 (wrap32 (3 * s.p.avg) + Int.tdiv diff tick_diff)) 4
      if a < 0 then 0 else a
    else s.p.avg
  let wait1 : Int := if diff < 0 then 0 else s.p.wait
  let wait2 : Int := if 10 < avg1 then wrap32 (wait1 + avg1) else wait1
  let sleeps2 :=
    if 10 < avg1 then
      -- select { case <-p.Dying(): break; case <-time.After(avg ms): }
      (if s.p.dying.isSome then s.sleeps else s.sleeps ++ [avg1])
    else s.sleeps
  { s with p := { s.p with avg := avg1, wait := wait2, snd := snd1, tick := e.now2 },
           sleeps := sleeps2 }

/-- The method `P2pConn.tcpReadLoopFor`: the flow-control part `pace`, then
the read from the local socket and the frame sent to the link. -/
def tcpReadLoopFor (MsgHdrSize : Int) (e : ReadEnv) (s : Sys) : Except Fault (Sys × Option Err) :=
  let s1 := pace e s
  let (mb, s2) := NewMsgBuf s1
  -- defer mb.Free()
  let mb1 := { mb with hdr := s2.p.hdr, Size := e.n + MsgHdrSize, body := e.data }
  let s3 := { s2 with p := { s2.p with rLen := wrap32 (s2.p.rLen + wrap32 e.n) } }
  if s3.p.wait > (10000 : Int) ∨ e.err = true then
    let s4 := { s3 with p := { s3.p with hdr := { s3.p.hdr with type := MsgType.MsgTypeFin } } }
    let mb2 := { mb1 with hdr := s4.p.hdr, Size := MsgHdrSize }
    let s5 := Dup mb2 s4
    match e.sel with
    | .selfDying =>
        if s5.p.dying.isSome then .ok (Free mb2 (Kill Err.ErrMsgRead s5), some Err.ErrMsgRead)
        else .error Fault.blocked
    | .linkDying =>
        if s5.p2pc.dying then .ok (Free mb2 (Kill Err.ErrMsgRead s5), some Err.ErrMsgRead)
        else .error Fault.blocked
    | .send =>
        let s6 := { s5 with p2pc := { s5.p2pc with wMsg := s5.p2pc.wMsg ++ [mb2] } }
        .ok (Free mb2 (Kill Err.ErrMsgRead s6), some Err.ErrMsgRead)
  else
    let s5 := Dup mb1 s3
    match e.sel with
    | .linkDying =>
        if s5.p2pc.dying then .ok (Free mb1 s5, some Err.ErrMsgKilled) else .error Fault.blocked
    | .send =>
        .ok (Free mb1 { s5 with p2pc := { s5.p2pc with wMsg := s5.p2pc.wMsg ++ [mb1] } }, none)
    | .selfDying => .error Fault.blocked

/-- The loop `for { tcpReadLoopFor }` of `tcpReadLoop`, run on the inputs of
its successive iterations until one returns an error or the inputs end. -/
def tcpReadLoopIter (MsgHdrSize : Int) : List ReadEnv → Sys → Except Fault Sys
  | [], s => .ok s
  | e :: es, s =>
      match tcpReadLoopFor MsgHdrSize e s with
      | .error f => .error f
      | .ok (s1, some _) => .ok s1
      | .ok (s1, none) => tcpReadLoopIter MsgHdrSize es s1

/-- The method `P2pConn.tcpReadLoop`; `now` is the reading of `iclock()`. -/
def tcpReadLoop (MsgHdrSize : Int) (now : Int) (es : List ReadEnv) (s : Sys) : Except Fault Sys :=
  tcpReadLoopIter MsgHdrSize es { s with p := { s.p with avg := 20, tick := now } }

/-! ## tcpWriteLoopFor -/

/-- The result `(n, err)` of a call `tcpConn.Write(p)`; `err` is `err != nil`. -/
structure WriteRes where
  n : Nat
  err : Bool
deriving DecidableEq

/-- How the loop `SEND_LOOP` ends: by `break` or in its error branch. -/
inductive SendEnd where
  | done
  | failed
deriving DecidableEq

/-- The loop `SEND_LOOP` of `tcpWriteLoopFor` on the region `real` (the value
of `mb.GetReal()`) and `size` (`mb.Size`).  `sock i p` is the result of the
`i`-th call `tcpConn.Write(p)`; every call is recorded in `writes`.  The result
is the state, `wsize`, and how the loop ended. -/
def SEND_LOOP (sock : Nat → List Nat → WriteRes) (real : List Nat) (size : Int) :
    Nat → Nat → Nat → Sys → Except Fault (Sys × Nat × SendEnd)
  | 0, _, _, _ => .error Fault.noFuel
  | fuel + 1, i, wsize, s =>
      if real.length < wsize then .error Fault.outOfRange
      else
        let r := sock i (real.drop wsize)
        let s1 := { s with writes := s.writes ++ [⟨real.drop wsize, r.n⟩] }
        if r.err = false ∧ (r.n : Int) = size - wsize then .ok (s1, wsize, SendEnd.done)
        else if r.err = false then SEND_LOOP sock real size fuel (i + 1) (wsize + r.n) s1
        else .ok (s1, wsize, SendEnd.failed)

/-- The method `P2pConn.tcpWriteLoopFor`.  `GetReal` is the method
`MsgBuf.GetReal` of `common`, `fuel` bounds the iterations of `SEND_LOOP`. -/
def tcpWriteLoopFor (MsgHdrSize : Int) (GetReal : MsgBuf → List Nat)
    (sock : Nat → List Nat → WriteRes) (fuel : Nat) (sel : LinkSel) (s : Sys) :
    Except Fault (Sys × Option Err) :=
  match s.p.wMsg.buf with
  | [] => if s.p.wMsg.closed then .ok (s, none) else .error Fault.blocked
  | mb :: rest =>
      let s1 := { s with p := { s.p with wMsg := { s.p.wMsg with buf := rest } } }
      -- defer mb.Free()
      match SEND_LOOP sock (GetReal mb) mb.Size fuel 0 0 s1 with
      | .error f => .error f
      | .ok (s2, wsize, SendEnd.done) =>
          .ok (Free mb { s2 with p := { s2.p with wLen := wrap32 (s2.p.wLen + wrap32 wsize) } },
               none)
      | .ok (s2, _, SendEnd.failed) =>
          let s3 := { s2 with p := { s2.p with hdr := { s2.p.hdr with type := MsgType.MsgTypeFin } } }
          let (rmb, s4) := NewMsgBuf s3
          -- defer rmb.Free()
          let rmb1 := { rmb with hdr := s4.p.hdr, Size := MsgHdrSize }
          let s5 := Dup rmb1 s4
          match sel with
          | .linkDying =>
              if s5.p2pc.dying then
                .ok (Free mb (Free rmb1 (Kill Err.ErrMsgWrite s5)), some Err.ErrMsgWrite)
              else .error Fault.blocked
          | .send =>
              let s6 := { s5 with p2pc := { s5.p2pc with wMsg := s5.p2pc.wMsg ++ [rmb1] } }
              .ok (Free mb (Free rmb1 (Kill Err.ErrMsgWrite s6)), some Err.ErrMsgWrite)
          | .selfDying => .error Fault.blocked

/-! ## Run: the dispatch loop in its environment -/

/-- A step of the connection or of its environment after `Init`: the link's
demultiplexer takes a buffer from the pool, fills it and puts it into `p.in`;
the dispatch loop runs one `RunFor`; the outbound relay loop runs one
`tcpWriteLoopFor`. -/
inductive Step where
  | deliver (hdr : MsgHdr) (Size : Int) (body : List Nat)
  | runFor (sel : RunSel)
  | writeFor (sock : Nat → List Nat → WriteRes) (fuel : Nat) (sel : LinkSel)

/-- The demultiplexer's send of a fresh buffer, holding one reference, to `p.in`. -/
def deliver (hdr : MsgHdr) (Size : Int) (body : List Nat) (s : Sys) : Except Fault Sys :=
  if s.p.in_.closed then .error Fault.closedChan
  else if s.p.in_.room = 0 then .error Fault.blocked
  else
    let (mb, s1) := NewMsgBuf s
    let mb1 := { mb with hdr := hdr, Size := Size, body := body }
    .ok { s1 with p := { s1.p with in_ := { s1.p.in_ with buf := s1.p.in_.buf ++ [mb1] } } }

/-- One step.  The second component is what `Run` has returned, if it has: once
the dispatch loop has returned, no further `RunFor` is executed. -/
def step (MsgHdrSize : Int) (GetReal : MsgBuf → List Nat) :
    Step → Sys × Option Err → Except Fault (Sys × Option Err)
  | .deliver hdr Size body, (s, r) =>
      match deliver hdr Size body s with
      | .ok s1 => .ok (s1, r)
      | .error f => .error f
  | .runFor sel, (s, none) => RunFor sel s
  | .runFor _, (s, some e) => .ok (s, some e)
  | .writeFor sock fuel sel, (s, r) =>
      match tcpWriteLoopFor MsgHdrSize GetReal sock fuel sel s with
      | .ok (s1, _) => .ok (s1, r)
      | .error f => .error f

/-- A sequence of steps. -/
def steps (MsgHdrSize : Int) (GetReal : MsgBuf → List Nat) :
    List Step → Sys × Option Err → Except Fault (Sys × Option Err)
  | [], x => .ok x
  | st :: rest, x =>
      match step MsgHdrSize GetReal st x with
      | .ok y => steps MsgHdrSize GetReal rest y
      | .error f => .error f

/-- The method `P2pConn.Run`: `Init`, then `RunFor` until it returns an error,
interleaved with the steps of the environment. -/
def Run (MsgHdrSize : Int) (GetReal : MsgBuf → List Nat) (sel : LinkSel) (sts : List Step)
    (s : Sys) : Except Fault (Sys × Option Err) :=
  match Init MsgHdrSize sel s with
  | .error f => .error f
  | .ok (s1, some e) => .ok (s1, some e)
  | .ok (s1, none) => steps MsgHdrSize GetReal sts (s1, none)

/-! ## Concrete states used in the examples -/

/-- A frame of the given type and payload in the buffer `id`. -/
def frame (id : Nat) (ty : MsgType) (body : List Nat) : MsgBuf :=
  { Id := id, hdr := ⟨ty, 0, 8080, 42⟩, Size := body.length, body := body }

/-- A freshly constructed connection: empty queues of the given capacities,
zeroed counters and flow-control state, no buffer in use. -/
def newSys (isProxy : Bool) (inCap wCap : Nat) : Sys :=
  { p := { dying := none, tcpClosed := false, innerPort := 42, tcpPort := 8080,
           isProxy := isProxy, rLen := 0, wLen := 0, rlist := [],
           snd := 0, tick := 0, wait := 0, avg := 0,
           hdr := ⟨MsgType.MsgTypeNone, 0, 0, 0⟩,
           in_ := ⟨[], inCap, false⟩, wMsg := ⟨[], wCap, false⟩ },
    p2pc := { dying := false, wMsg := [], removals := 0 },
    clientId := 1, used := fun _ => 0, frees := [], nextId := 0,
    readLoops := 0, writeLoops := 0, sleeps := [], writes := [], dispatched := [] }

/-- The state with the pending queue `bs` (one reference each) in front of a
socket-write channel with room for `k` buffers. -/
def pending (bs : List MsgBuf) (k : Nat) : Sys :=
  let s := newSys false 8 k
  { s with p := { s.p with rlist := bs.map some },
           used := fun i => if bs.any (fun b => b.Id = i) then 1 else 0 }

/-! ## Definitions used in the statements and proofs -/

/-- The number of entries of `l` that are the buffer `i`. -/
def idCount (i : Nat) (l : List MsgBuf) : Int := (l.countP (fun b => b.Id = i) : Nat)

/-- The net change of the count of buffer `i` caused by `writeAll` on the queue
`bs` with room for `k` buffers: one more for the buffer at which the flush is
refused, nothing for every other. -/
def refusedAt (i : Nat) (bs : List MsgBuf) (k : Nat) : Int :=
  match bs.drop k with
  | [] => 0
  | b :: _ => if b.Id = i then 1 else 0

/-- The pending queue A, B, C of the examples. -/
def abc : List MsgBuf :=
  [frame 0 MsgType.MsgTypeData [1], frame 1 MsgType.MsgTypeData [2],
   frame 2 MsgType.MsgTypeData [3]]

/-- The socket accepts a part of every non-empty slice without error: each
call on `p` returns `n` with `0 < n ≤ len(p)` and a nil error. -/
def ValidSock (sock : Nat → List Nat → WriteRes) : Prop :=
  ∀ i p, p ≠ [] → (sock i p).err = false ∧ 0 < (sock i p).n ∧ (sock i p).n ≤ p.length

/-- The bytes the socket accepted in a sequence of `Write` calls. -/
def accepted : List WriteCall → List Nat
  | [] => []
  | c :: cs => c.offered.take c.n ++ accepted cs

/-- Every call of the sequence was issued on the region of `real` that starts
at the offset `off` plus the bytes accepted by the calls before it. -/
def issuedFrom (real : List Nat) : Nat → List WriteCall → Prop
  | _, [] => True
  | off, c :: cs => c.offered = real.drop off ∧ issuedFrom real (off + c.n) cs

/-- The number of bytes accepted in a sequence of `Write` calls. -/
def acceptedLen (cs : List WriteCall) : Nat := (cs.map (fun c => c.n)).sum

/-- The state in which the frame `mb` is the only entry of the socket-write
queue of an acceptor whose counters are zero. -/
def writing (mb : MsgBuf) : Sys :=
  let s := newSys true 8 8
  { s with p := { s.p with wMsg := { s.p.wMsg with buf := [mb] } },
           used := fun i => if i = mb.Id then 1 else 0 }

/-- A socket that accepts `k` bytes in its first call and everything offered in
the later ones. -/
def sockFirst (k : Nat) : Nat → List Nat → WriteRes :=
  fun i p => if i = 0 then ⟨min k p.length, false⟩ else ⟨p.length, false⟩

/-- The value of a computation that returned, `d` otherwise. -/
def okOr {α : Type} (d : α) : Except Fault α → α
  | .ok a => a
  | .error _ => d

/-- The taxonomy of termination causes in the error-handling section of the
specification.  The code has no such type: its causes are the values of `Err`. -/
inductive Cause where
  | protocol
  | localIO
  | cancellation
  | congestionTimeout
deriving DecidableEq

/-- A connection whose cumulative wait is 9990 and smoothed rate 20: the next
pacing step raises the wait above 10000. -/
def congested : Sys :=
  { newSys true 8 8 with p := { (newSys true 8 8).p with
      avg := 20, wait := 9990, hdr := ⟨MsgType.MsgTypeData, 1, 8080, 42⟩ } }

/-- An iteration whose read succeeds with 5 bytes while the clock stands still. -/
def envReadOk : ReadEnv := ⟨0, 0, 0, 5, false, [1, 2, 3, 4, 5], LinkSel.send⟩

/-- An iteration whose read fails. -/
def envReadFails : ReadEnv := ⟨0, 0, 0, 0, true, [], LinkSel.send⟩

/-- The kill-switch iteration: `congested` with a successful read. -/
def killed1 : Sys × Option Err :=
  okOr (congested, none) (tcpReadLoopFor 8 envReadOk congested)

/-- A read failure on a connection that was never paced. -/
def failed1 : Sys × Option Err :=
  okOr (congested, none) (tcpReadLoopFor 8 envReadFails
    { congested with p := { congested.p with avg := 0, wait := 0 } })

/-- The parts of the state that only `Init` and `RunFor` themselves change. -/
def SameCtl (s s1 : Sys) : Prop :=
  s1.readLoops = s.readLoops ∧ s1.writeLoops = s.writeLoops ∧
  s1.dispatched = s.dispatched ∧ s1.p.isProxy = s.p.isProxy

/-- The region written to the socket in the examples: the bytes of the body. -/
def bodyOf (mb : MsgBuf) : List Nat := mb.body

/-- The header of a SynOk frame for the connection of the examples. -/
def synOkHdr : MsgHdr := ⟨MsgType.MsgTypeSynOk, 0, 8080, 42⟩

/-- The header of a Data frame for the connection of the examples. -/
def dataHdr : MsgHdr := ⟨MsgType.MsgTypeData, 0, 8080, 42⟩

/-- The steps after `Init` of the teardown example: two Data frames A and B
arrive and are dispatched while the socket-write queue has room for one. -/
def twoFrames : List Step :=
  [Step.deliver dataHdr 3 [1, 2, 3], Step.deliver dataHdr 3 [4, 5, 6],
   Step.runFor RunSel.recv, Step.runFor RunSel.recv]

/-- The state of the teardown example before `Close`. -/
def beforeClose : Sys :=
  (okOr (newSys true 8 1, none) (Run 8 bodyOf LinkSel.send twoFrames (newSys true 8 1))).1

/-- The pending queue has no nil entry and neither channel is closed. -/
def QueuesOk (s : Sys) : Prop :=
  (∃ bs : List MsgBuf, s.p.rlist = bs.map some) ∧ s.p.wMsg.closed = false ∧
  s.p.in_.closed = false

/-! ## Theorems: writeAll -/

@[simp] theorem Dup_p (mb : MsgBuf) (s : Sys) : (Dup mb s).p = s.p := rfl

@[simp] theorem Free_p (mb : MsgBuf) (s : Sys) : (Free mb s).p = s.p := rfl

@[simp] theorem runDefers_p (dfr : List MsgBuf) (s : Sys) : (runDefers dfr s).p = s.p := by
  induction dfr generalizing s with
  | nil => rfl
  | cons mb rest ih => simp [runDefers, ih]

theorem runDefers_used (dfr : List MsgBuf) (s : Sys) (i : Nat) :
    (runDefers dfr s).used i = s.used i - idCount i dfr := by
  induction dfr generalizing s with
  | nil => simp [runDefers, idCount]
  | cons mb rest ih =>
      simp only [runDefers, ih, idCount, Free, List.countP_cons]
      by_cases h : mb.Id = i
      · subst h; simp; try ring
      · have h2 : ¬ i = mb.Id := fun e => h e.symm
        simp [h, h2]

theorem writeAllFor_spec (bs : List MsgBuf) :
    ∀ (pre : List (Option MsgBuf)) (dfr : List MsgBuf) (s : Sys),
      s.p.rlist = pre ++ bs.map some → s.p.wMsg.closed = false →
      ∃ s1, writeAllFor (bs.map some) pre.length dfr s = .ok s1 ∧
        s1.p.wMsg.buf = s.p.wMsg.buf ++ bs.take s.p.wMsg.room ∧
        s1.p.rlist = (bs.drop s.p.wMsg.room).map some ∧
        s1.p.wMsg.cap = s.p.wMsg.cap ∧ s1.p.wMsg.closed = false ∧
        (∀ i, s1.used i = s.used i - idCount i dfr + refusedAt i bs s.p.wMsg.room) := by
  induction bs with
  | nil =>
      intro pre dfr s _ hc
      refine ⟨_, rfl, ?_, ?_, ?_, ?_, ?_⟩ <;> simp [hc, runDefers_used, refusedAt]
  | cons b bs ih =>
      intro pre dfr s hr hc
      by_cases hroom : 0 < s.p.wMsg.room
      · -- the send goes through
        have hlen : s.p.wMsg.buf.length < s.p.wMsg.cap := by
          simpa [Chan.room] using hroom
        obtain ⟨k, hk⟩ : ∃ k, s.p.wMsg.room = k + 1 := ⟨s.p.wMsg.room - 1, by omega⟩
        let s2 : Sys := { Dup b s with p := { s.p with
          wMsg := { s.p.wMsg with buf := s.p.wMsg.buf ++ [b] },
          rlist := s.p.rlist.set pre.length none } }
        have hr2 : s2.p.rlist = (pre ++ [none]) ++ bs.map some := by
          simp [s2, hr]
        have hroom2 : s2.p.wMsg.room = k := by
          simp only [s2, Chan.room, List.length_append, List.length_singleton] at hk ⊢
          omega
        obtain ⟨s1, h1, h2, h3, h4, h5, h6⟩ := ih (pre ++ [none]) (b :: dfr) s2 hr2 (by simpa [s2] using hc)
        refine ⟨s1, ?_, ?_, ?_, ?_, ?_, ?_⟩
        · simp only [List.map_cons, writeAllFor, Dup_p, hc, hroom, if_true, Bool.false_eq_true,
            if_false]
          simpa [s2, hc] using h1
        · rw [h2, hroom2, hk]; simp [s2]
        · rw [h3, hroom2, hk]; simp
        · rw [h4]
        · exact h5
        · intro i
          rw [h6 i, hroom2, hk]
          simp only [s2, Dup, idCount, List.countP_cons, refusedAt, List.drop_succ_cons]
          by_cases h : b.Id = i
          · subst h; simp; try ring
          · have h2 : ¬ i = b.Id := fun e => h e.symm
            simp [h, h2]
      · -- the send is refused
        have hz : s.p.wMsg.room = 0 := by omega
        refine ⟨runDefers (b :: dfr) { Dup b (Dup b s) with
            p := { s.p with rlist := s.p.rlist.drop pre.length } }, ?_, ?_, ?_, ?_, ?_, ?_⟩
        · simp only [List.map_cons, writeAllFor, Dup_p, hc, hroom, if_false, Bool.false_eq_true]
        · simp [hz]
        · simp [hz, hr]
        · simp
        · simp [hc]
        · intro i
          simp only [runDefers_used, hz, refusedAt, List.drop_zero, idCount, List.countP_cons, Dup]
          by_cases h : b.Id = i
          · subst h; simp; try ring
          · have h2 : ¬ i = b.Id := fun e => h e.symm
            simp [h, h2]

/-- What one call of `writeAll` does to a queue `bs` without nil entries: it
returns, the first `room` buffers are appended to the channel, the rest stays,
and the count of a buffer changes by `refusedAt`. -/
theorem writeAll_spec (s : Sys) (bs : List MsgBuf)
    (h : s.p.rlist = bs.map some) (hc : s.p.wMsg.closed = false) :
    ∃ s1, writeAll s = .ok s1 ∧
      s1.p.wMsg.buf = s.p.wMsg.buf ++ bs.take s.p.wMsg.room ∧
      s1.p.rlist = (bs.drop s.p.wMsg.room).map some ∧
      s1.p.wMsg.cap = s.p.wMsg.cap ∧ s1.p.wMsg.closed = false ∧
      (∀ i, s1.used i = s.used i + refusedAt i bs s.p.wMsg.room) := by
  cases bs with
  | nil =>
      refine ⟨s, ?_, ?_, ?_, rfl, hc, ?_⟩
      · simp [writeAll, h]
      · simp
      · simpa using h
      · intro i; simp [refusedAt]
  | cons b bs =>
      obtain ⟨s1, h1, h2, h3, h4, h5, h6⟩ :=
        writeAllFor_spec (b :: bs) [] [] s (by simpa using h) hc
      refine ⟨s1, ?_, h2, h3, h4, h5, ?_⟩
      · simp only [writeAll, h, List.map_cons, List.length_cons, Nat.zero_lt_succ, if_true]
        simpa using h1
      · intro i
        have := h6 i
        simpa [idCount] using this

/-- C1. Pending-queue order and no loss: on a pending queue `bs` (no nil
entry) and a socket-write channel that accepts exactly `k = room` further
non-blocking sends, one call of `writeAll` returns, hands the first
`m = min k n` buffers to `wMsg` in their order and leaves the other `n - m` in
`rlist` in their order; the buffers handed off followed by the buffers kept
are the original queue, so none is lost and none is both handed off and kept. -/
theorem writeAll_order_no_loss (s : Sys) (bs : List MsgBuf)
    (h : s.p.rlist = bs.map some) (hc : s.p.wMsg.closed = false) :
    ∃ s1 handed kept, writeAll s = .ok s1 ∧
      s1.p.wMsg.buf = s.p.wMsg.buf ++ handed ∧
      s1.p.rlist = kept.map some ∧
      handed = bs.take (min s.p.wMsg.room bs.length) ∧
      kept = bs.drop (min s.p.wMsg.room bs.length) ∧
      handed.length = min s.p.wMsg.room bs.length ∧
      handed ++ kept = bs := by
  obtain ⟨s1, h1, h2, h3, _, _, _⟩ := writeAll_spec s bs h hc
  have ht : bs.take (min s.p.wMsg.room bs.length) = bs.take s.p.wMsg.room := by
    rcases Nat.le_total s.p.wMsg.room bs.length with hle | hle
    · rw [Nat.min_eq_left hle]
    · rw [Nat.min_eq_right hle, List.take_of_length_le hle, List.take_length]
  have hd : bs.drop (min s.p.wMsg.room bs.length) = bs.drop s.p.wMsg.room := by
    rcases Nat.le_total s.p.wMsg.room bs.length with hle | hle
    · rw [Nat.min_eq_left hle]
    · rw [Nat.min_eq_right hle, List.drop_of_length_le hle, List.drop_length]
  refine ⟨s1, _, _, h1, ?_, ?_, rfl, rfl, ?_, List.take_append_drop _ _⟩
  · rw [h2, ht]
  · rw [h3, hd]
  · simp

/-- C1 at the queue A, B, C with room for one buffer. -/
theorem writeAll_order_no_loss_witness :
    ∃ s1 handed kept, writeAll (pending abc 1) = .ok s1 ∧
      s1.p.wMsg.buf = (pending abc 1).p.wMsg.buf ++ handed ∧
      s1.p.rlist = kept.map some ∧
      handed = abc.take (min (pending abc 1).p.wMsg.room abc.length) ∧
      kept = abc.drop (min (pending abc 1).p.wMsg.room abc.length) ∧
      handed.length = min (pending abc 1).p.wMsg.room abc.length ∧
      handed ++ kept = abc :=
  writeAll_order_no_loss (pending abc 1) abc rfl rfl

/-- The three scenarios of the specification: the receiver refuses every send,
accepts one, accepts all. -/
theorem writeAll_abc_scenarios :
    (writeAll (pending abc 0)).toOption.map (fun s => (s.p.wMsg.buf, s.p.rlist))
        = some ([], abc.map some) ∧
    (writeAll (pending abc 1)).toOption.map (fun s => (s.p.wMsg.buf, s.p.rlist))
        = some (abc.take 1, (abc.drop 1).map some) ∧
    (writeAll (pending abc 3)).toOption.map (fun s => (s.p.wMsg.buf, s.p.rlist))
        = some (abc, []) := by
  decide

/-! ## Theorems: reference counts in writeAll -/

/-- A refused flush leaves the queue as it is and raises the count of its first
buffer by one: the operand `mb.Dup()` of the refused send and the compensating
`mb.Dup()` of the `default` case are two duplications against one deferred
`Free`. -/
theorem writeAll_refused_head (s : Sys) (b : MsgBuf) (rest : List MsgBuf)
    (h : s.p.rlist = (b :: rest).map some) (hc : s.p.wMsg.closed = false)
    (hz : s.p.wMsg.room = 0) :
    ∃ s1, writeAll s = .ok s1 ∧ s1.p.rlist = s.p.rlist ∧ s1.p.wMsg = s.p.wMsg ∧
      s1.used b.Id = s.used b.Id + 1 := by
  obtain ⟨s1, h1, h2, h3, h4, h5, h6⟩ := writeAll_spec s (b :: rest) h hc
  refine ⟨s1, h1, ?_, ?_, ?_⟩
  · rw [h3, hz, h]; rfl
  · have e : s1.p.wMsg = ⟨s1.p.wMsg.buf, s1.p.wMsg.cap, s1.p.wMsg.closed⟩ := rfl
    rw [e, h2, h4, h5, hz, ← hc]; simp
  · rw [h6, hz]; simp [refusedAt]

/-- The buffers that `writeAll` hands to the channel, and the buffers behind
the one at which it is refused, keep their counts. -/
theorem writeAll_other_counts (s : Sys) (bs : List MsgBuf)
    (h : s.p.rlist = bs.map some) (hc : s.p.wMsg.closed = false) (i : Nat)
    (hi : ∀ b, (bs.drop s.p.wMsg.room).head? = some b → b.Id ≠ i) :
    ∃ s1, writeAll s = .ok s1 ∧ s1.used i = s.used i := by
  obtain ⟨s1, h1, _, _, _, _, h6⟩ := writeAll_spec s bs h hc
  refine ⟨s1, h1, ?_⟩
  rw [h6]
  unfold refusedAt
  cases hd : bs.drop s.p.wMsg.room with
  | nil => simp
  | cons b l =>
      have := hi b (by simp [hd])
      simp [this]

/-- C2 (failing input). The pending queue holds the single buffer A with one
reference and the socket-write channel refuses the send.  After one call of
`writeAll` the queue still holds A, once, but the count of A is 2; after a
second refused call it is 3, and after a further call in which the channel
accepts A the count is still 3 although the receiver is the only holder. -/
theorem writeAll_refused_leaks_reference :
    (pending [frame 0 MsgType.MsgTypeData [1]] 0).used 0 = 1 ∧
    (writeAll (pending [frame 0 MsgType.MsgTypeData [1]] 0)).toOption.map
        (fun s => (s.p.rlist, s.p.wMsg.buf, s.used 0))
      = some ([some (frame 0 MsgType.MsgTypeData [1])], [], 2) ∧
    ((writeAll (pending [frame 0 MsgType.MsgTypeData [1]] 0)).bind writeAll).toOption.map
        (fun s => (s.p.rlist, s.p.wMsg.buf, s.used 0))
      = some ([some (frame 0 MsgType.MsgTypeData [1])], [], 3) ∧
    (((writeAll (pending [frame 0 MsgType.MsgTypeData [1]] 0)).bind writeAll).bind
        (fun s => writeAll { s with p := { s.p with wMsg := { s.p.wMsg with cap := 1 } } })).toOption.map
        (fun s => (s.p.rlist, s.p.wMsg.buf, s.used 0))
      = some ([], [frame 0 MsgType.MsgTypeData [1]], 3) := by
  decide

/-! ## Theorems: tcpWriteLoopFor -/

theorem accepted_append (xs ys : List WriteCall) :
    accepted (xs ++ ys) = accepted xs ++ accepted ys := by
  induction xs with
  | nil => rfl
  | cons c cs ih => simp [accepted, ih]

theorem SEND_LOOP_spec (sock : Nat → List Nat → WriteRes) (hv : ValidSock sock)
    (real : List Nat) (size : Int) (hsz : size = real.length) :
    ∀ (fuel i wsize : Nat) (s : Sys), wsize < real.length → real.length - wsize ≤ fuel →
      ∃ init last, SEND_LOOP sock real size fuel i wsize s
          = .ok ({ s with writes := s.writes ++ (init ++ [last]) },
                 wsize + acceptedLen init, SendEnd.done) ∧
        issuedFrom real wsize (init ++ [last]) ∧
        accepted (init ++ [last]) = real.drop wsize ∧
        wsize + acceptedLen init + last.n = real.length ∧ 0 < last.n := by
  intro fuel
  induction fuel with
  | zero => intro i wsize s h1 h2; omega
  | succ fuel ih =>
      intro i wsize s h1 h2
      have hne : real.drop wsize ≠ [] := by
        intro h
        have := congrArg List.length h
        simp at this
        omega
      obtain ⟨he, hpos, hle⟩ := hv i (real.drop wsize) hne
      simp only [List.length_drop] at hle
      by_cases hfull : (sock i (real.drop wsize)).n = real.length - wsize
      · refine ⟨[], ⟨real.drop wsize, (sock i (real.drop wsize)).n⟩, ?_, ?_, ?_, ?_, hpos⟩
        · have hcond : ((sock i (real.drop wsize)).n : Int) = size - wsize := by
            rw [hsz, hfull]; omega
          simp [SEND_LOOP, Nat.not_lt.mpr (Nat.le_of_lt h1), he, hcond, acceptedLen]
        · simp [issuedFrom]
        · simp only [List.nil_append, accepted, List.append_nil]
          rw [hfull]
          exact List.take_of_length_le (by simp)
        · simp [acceptedLen]; omega
      · have hlt : (sock i (real.drop wsize)).n < real.length - wsize := by omega
        obtain ⟨init, last, h3, h4, h5, h6, h7⟩ :=
          ih (i + 1) (wsize + (sock i (real.drop wsize)).n)
            { s with writes := s.writes ++ [⟨real.drop wsize, (sock i (real.drop wsize)).n⟩] }
            (by omega) (by omega)
        refine ⟨⟨real.drop wsize, (sock i (real.drop wsize)).n⟩ :: init, last, ?_, ?_, ?_, ?_, h7⟩
        · have hcond : ¬ ((sock i (real.drop wsize)).n : Int) = size - wsize := by
            rw [hsz]; omega
          simp only [SEND_LOOP, Nat.not_lt.mpr (Nat.le_of_lt h1), if_false, he, hcond,
            true_and, if_true, h3]
          simp [acceptedLen, Nat.add_assoc]
        · exact ⟨rfl, h4⟩
        · show List.take _ (real.drop wsize) ++ accepted (init ++ [last]) = _
          rw [h5]
          have e : List.drop (wsize + (sock i (real.drop wsize)).n) real
              = List.drop (sock i (real.drop wsize)).n (List.drop wsize real) := by
            simp [List.drop_drop, Nat.add_comm]
          rw [e]
          exact List.take_append_drop _ _
        · simp only [acceptedLen, List.map_cons, List.sum_cons] at h6 ⊢
          omega

theorem acceptedLen_append (xs ys : List WriteCall) :
    acceptedLen (xs ++ ys) = acceptedLen xs + acceptedLen ys := by
  simp [acceptedLen]

/-- A frame taken from `wMsg` whose region is written without error: the
function returns nil, the calls cover the region once, the write counter grows
by the bytes accepted before the last call, nothing is sent to the link. -/
theorem tcpWriteLoopFor_done (MsgHdrSize : Int) (GetReal : MsgBuf → List Nat)
    (sock : Nat → List Nat → WriteRes) (fuel : Nat) (sel : LinkSel) (s : Sys)
    (mb : MsgBuf) (rest : List MsgBuf)
    (hq : s.p.wMsg.buf = mb :: rest) (hsz : mb.Size = (GetReal mb).length)
    (hpos : 0 < mb.Size) (hv : ValidSock sock) (hfuel : (GetReal mb).length ≤ fuel) :
    ∃ s1 init last, tcpWriteLoopFor MsgHdrSize GetReal sock fuel sel s = .ok (s1, none) ∧
      s1.writes = s.writes ++ (init ++ [last]) ∧
      issuedFrom (GetReal mb) 0 (init ++ [last]) ∧
      accepted (init ++ [last]) = GetReal mb ∧
      acceptedLen init + last.n = (GetReal mb).length ∧ 0 < last.n ∧
      s1.p.wLen = wrap32 (s.p.wLen + wrap32 (acceptedLen init)) ∧
      s1.p2pc = s.p2pc ∧ s1.p.dying = s.p.dying ∧ s1.p.hdr = s.p.hdr ∧
      s1.p.wMsg.buf = rest := by
  have hlen : 0 < (GetReal mb).length := by omega
  obtain ⟨init, last, h1, h2, h3, h4, h5⟩ :=
    SEND_LOOP_spec sock hv (GetReal mb) mb.Size hsz fuel 0 0
      { s with p := { s.p with wMsg := { s.p.wMsg with buf := rest } } } hlen (by omega)
  refine ⟨Free mb { s with
      p := { s.p with wMsg := { s.p.wMsg with buf := rest },
                      wLen := wrap32 (s.p.wLen + wrap32 ((0 + acceptedLen init : Nat) : Int)) },
      writes := s.writes ++ (init ++ [last]) },
    init, last, ?_, ?_, h2, ?_, ?_, h5, ?_, ?_, ?_, ?_, ?_⟩
  · simp only [tcpWriteLoopFor, hq, h1]
  · simp [Free]
  · simpa using h3
  · simpa using h4
  · simp [Free]
  · simp [Free]
  · simp [Free]
  · simp [Free]
  · simp [Free]

/-- C4. Partial write completion: for a frame at the head of `wMsg` whose
region `GetReal()` has length `Size > 0`, and a socket whose every `Write` call
accepts without error `n` bytes with `0 < n ≤` the bytes offered,
`tcpWriteLoopFor` returns (any budget of at least `Size` iterations suffices)
with a nil error; each call was issued on the region starting at the sum of
the bytes accepted before it; the bytes accepted, in order, are exactly the
region, `Size` bytes in all; no frame is sent to the link and the connection is
not killed. -/
theorem tcpWriteLoopFor_partial_write_completion (MsgHdrSize : Int)
    (GetReal : MsgBuf → List Nat) (sock : Nat → List Nat → WriteRes) (fuel : Nat)
    (sel : LinkSel) (s : Sys) (mb : MsgBuf) (rest : List MsgBuf)
    (hq : s.p.wMsg.buf = mb :: rest) (hsz : mb.Size = (GetReal mb).length)
    (hpos : 0 < mb.Size) (hv : ValidSock sock) (hfuel : (GetReal mb).length ≤ fuel) :
    ∃ s1 calls, tcpWriteLoopFor MsgHdrSize GetReal sock fuel sel s = .ok (s1, none) ∧
      s1.writes = s.writes ++ calls ∧
      issuedFrom (GetReal mb) 0 calls ∧
      accepted calls = GetReal mb ∧
      (acceptedLen calls : Int) = mb.Size ∧
      s1.p2pc.wMsg = s.p2pc.wMsg ∧ s1.p.dying = s.p.dying ∧ s1.p.hdr = s.p.hdr := by
  obtain ⟨s1, init, last, h1, h2, h3, h4, h5, _, _, h8, h9, h10, _⟩ :=
    tcpWriteLoopFor_done MsgHdrSize GetReal sock fuel sel s mb rest hq hsz hpos hv hfuel
  refine ⟨s1, init ++ [last], h1, h2, h3, h4, ?_, by rw [h8], h9, h10⟩
  rw [hsz, acceptedLen_append]
  simp only [acceptedLen, List.map_cons, List.map_nil, List.sum_cons, List.sum_nil] at h5 ⊢
  omega

theorem sockFirst_valid (k : Nat) (hk : 0 < k) : ValidSock (sockFirst k) := by
  intro i p hp
  have : 0 < p.length := List.length_pos.mpr hp
  unfold sockFirst
  split <;> simp <;> omega

/-- C4 at a 30-byte region written as 10 bytes, then 20. -/
theorem tcpWriteLoopFor_partial_write_completion_witness :
    ∃ s1 calls, tcpWriteLoopFor 8 (fun mb => mb.body) (sockFirst 10) 30 LinkSel.send
          (writing (frame 0 MsgType.MsgTypeData (List.replicate 30 7))) = .ok (s1, none) ∧
      s1.writes = (writing (frame 0 MsgType.MsgTypeData (List.replicate 30 7))).writes ++ calls ∧
      issuedFrom ((fun mb => mb.body) (frame 0 MsgType.MsgTypeData (List.replicate 30 7))) 0 calls ∧
      accepted calls = (fun mb => mb.body) (frame 0 MsgType.MsgTypeData (List.replicate 30 7)) ∧
      (acceptedLen calls : Int) = (frame 0 MsgType.MsgTypeData (List.replicate 30 7)).Size ∧
      s1.p2pc.wMsg = (writing (frame 0 MsgType.MsgTypeData (List.replicate 30 7))).p2pc.wMsg ∧
      s1.p.dying = (writing (frame 0 MsgType.MsgTypeData (List.replicate 30 7))).p.dying ∧
      s1.p.hdr = (writing (frame 0 MsgType.MsgTypeData (List.replicate 30 7))).p.hdr :=
  tcpWriteLoopFor_partial_write_completion 8 (fun mb => mb.body) (sockFirst 10) 30 LinkSel.send
    (writing (frame 0 MsgType.MsgTypeData (List.replicate 30 7)))
    (frame 0 MsgType.MsgTypeData (List.replicate 30 7)) [] rfl (by decide) (by decide)
    (sockFirst_valid 10 (by decide)) (by decide)

/-- The 30-byte example evaluated: two calls, on offsets 0 and 10, accepting 10
and 20 bytes. -/
theorem tcpWriteLoopFor_30_as_10_20 :
    (tcpWriteLoopFor 8 (fun mb => mb.body) (sockFirst 10) 30 LinkSel.send
        (writing (frame 0 MsgType.MsgTypeData (List.range 30)))).toOption.map
      (fun r => (r.1.writes.map (fun c => (c.offered.length, c.n)), accepted r.1.writes, r.2))
      = some ([(30, 10), (20, 20)], List.range 30, none) := by
  decide

/-- The write counter after a frame is written: it grows by the bytes accepted
before the last `Write` call, so by less than the bytes written. -/
theorem tcpWriteLoopFor_wLen (MsgHdrSize : Int) (GetReal : MsgBuf → List Nat)
    (sock : Nat → List Nat → WriteRes) (fuel : Nat) (sel : LinkSel) (s : Sys)
    (mb : MsgBuf) (rest : List MsgBuf)
    (hq : s.p.wMsg.buf = mb :: rest) (hsz : mb.Size = (GetReal mb).length)
    (hpos : 0 < mb.Size) (hv : ValidSock sock) (hfuel : (GetReal mb).length ≤ fuel) :
    ∃ s1 init last, tcpWriteLoopFor MsgHdrSize GetReal sock fuel sel s = .ok (s1, none) ∧
      s1.writes = s.writes ++ (init ++ [last]) ∧ 0 < last.n ∧
      s1.p.wLen = wrap32 (s.p.wLen + wrap32 (acceptedLen (init ++ [last]) - last.n)) := by
  obtain ⟨s1, init, last, h1, h2, _, _, _, h6, h7, _⟩ :=
    tcpWriteLoopFor_done MsgHdrSize GetReal sock fuel sel s mb rest hq hsz hpos hv hfuel
  refine ⟨s1, init, last, h1, h2, h6, ?_⟩
  rw [h7, acceptedLen_append]
  simp [acceptedLen]

set_option maxRecDepth 1000000 in
/-- C3 (failing input). A frame of 500 bytes is taken from the socket-write
queue with `wLen = 0`.  Written in one `Write` call of 500 bytes, it leaves
`wLen = 0`; written as 200 bytes and then 300, it leaves `wLen = 200`.  In both
runs the socket accepted 500 bytes and the function returned nil. -/
theorem tcpWriteLoopFor_wLen_misses_last_write :
    (writing (frame 0 MsgType.MsgTypeData (List.replicate 500 7))).p.wLen = 0 ∧
    (tcpWriteLoopFor 8 (fun mb => mb.body) (sockFirst 500) 500 LinkSel.send
        (writing (frame 0 MsgType.MsgTypeData (List.replicate 500 7)))).toOption.map
      (fun r => (acceptedLen r.1.writes, r.1.p.wLen, r.2)) = some (500, 0, none) ∧
    (tcpWriteLoopFor 8 (fun mb => mb.body) (sockFirst 200) 500 LinkSel.send
        (writing (frame 0 MsgType.MsgTypeData (List.replicate 500 7)))).toOption.map
      (fun r => (acceptedLen r.1.writes, r.1.p.wLen, r.2)) = some (500, 200, none) := by
  decide

/-! ## Theorems: the flow controller -/

theorem wrap32_lower (x : Int) : -2147483648 ≤ wrap32 x := by
  unfold wrap32; omega

theorem wrap32_upper (x : Int) : wrap32 x ≤ 2147483647 := by
  unfold wrap32; omega

theorem wrap32_of_range (x : Int) (h1 : -2147483648 ≤ x) (h2 : x ≤ 2147483647) :
    wrap32 x = x := by
  unfold wrap32; omega

theorem wrap32_wrap32_add (a b : Int) : wrap32 (wrap32 a + b) = wrap32 (a + b) := by
  unfold wrap32; omega

theorem tdiv4_nonneg (w : Int) (h : 0 ≤ w) : 0 ≤ Int.tdiv w 4 :=
  Int.tdiv_nonneg h (by decide)

theorem tdiv4_upper (w : Int) (h : w ≤ 2147483647) : Int.tdiv w 4 ≤ 536870911 := by
  rcases Int.lt_or_le w 0 with hn | hp
  · have h1 : 0 ≤ Int.tdiv (-w) 4 := Int.tdiv_nonneg (by omega) (by decide)
    rw [Int.neg_tdiv] at h1
    omega
  · rw [Int.tdiv_eq_ediv hp (by decide)]
    omega

@[simp] theorem Kill_avg (c : Err) (s : Sys) : (Kill c s).p.avg = s.p.avg := by
  unfold Kill; cases s.p.dying <;> rfl

@[simp] theorem Kill_wait (c : Err) (s : Sys) : (Kill c s).p.wait = s.p.wait := by
  unfold Kill; cases s.p.dying <;> rfl

@[simp] theorem Kill_snd (c : Err) (s : Sys) : (Kill c s).p.snd = s.p.snd := by
  unfold Kill; cases s.p.dying <;> rfl

@[simp] theorem Kill_tick (c : Err) (s : Sys) : (Kill c s).p.tick = s.p.tick := by
  unfold Kill; cases s.p.dying <;> rfl

@[simp] theorem Kill_sleeps (c : Err) (s : Sys) : (Kill c s).sleeps = s.sleeps := by
  unfold Kill; cases s.p.dying <;> rfl

@[simp] theorem Kill_p2pc (c : Err) (s : Sys) : (Kill c s).p2pc = s.p2pc := by
  unfold Kill; cases s.p.dying <;> rfl

@[simp] theorem Kill_used (c : Err) (s : Sys) : (Kill c s).used = s.used := by
  unfold Kill; cases s.p.dying <;> rfl

@[simp] theorem Kill_hdr (c : Err) (s : Sys) : (Kill c s).p.hdr = s.p.hdr := by
  unfold Kill; cases s.p.dying <;> rfl

/-- The second part of `tcpReadLoopFor` does not touch the flow-control fields. -/
theorem tcpReadLoopFor_flow (MsgHdrSize : Int) (e : ReadEnv) (s : Sys) (r : Sys × Option Err)
    (h : tcpReadLoopFor MsgHdrSize e s = .ok r) :
    r.1.p.avg = (pace e s).p.avg ∧ r.1.p.wait = (pace e s).p.wait ∧
    r.1.p.snd = (pace e s).p.snd ∧ r.1.p.tick = (pace e s).p.tick ∧
    r.1.sleeps = (pace e s).sleeps := by
  unfold tcpReadLoopFor at h
  simp only [NewMsgBuf] at h
  split at h
  · split at h
    · split at h
      · cases h; simp [Free, Dup]
      · cases h
    · split at h
      · cases h; simp [Free, Dup]
      · cases h
    · cases h; simp [Free, Dup]
  · split at h
    · split at h
      · cases h; simp [Free, Dup]
      · cases h
    · cases h; simp [Free, Dup]
    · cases h

/-- With the send case chosen, `tcpReadLoopFor` returns. -/
theorem tcpReadLoopFor_send_ok (MsgHdrSize : Int) (e : ReadEnv) (s : Sys)
    (hsel : e.sel = LinkSel.send) :
    ∃ r, tcpReadLoopFor MsgHdrSize e s = .ok r := by
  unfold tcpReadLoopFor
  simp only [NewMsgBuf, hsel]
  split
  · exact ⟨_, rfl⟩
  · exact ⟨_, rfl⟩

theorem pace_avg (e : ReadEnv) (s : Sys) :
    (pace e s).p.avg =
      if 0 < wrap32 (e.now1 - s.p.tick) then
        max 0 (Int.tdiv (wrap32 (3 * s.p.avg +
          Int.tdiv (wrap32 (wrap32 (e.waitSend * 80) - s.p.snd)) (wrap32 (e.now1 - s.p.tick)))) 4)
      else s.p.avg := by
  simp only [pace, wrap32_wrap32_add]
  split
  · split
    · rw [max_eq_left (by omega)]
    · rw [max_eq_right (by omega)]
  · rfl

theorem pace_avg_nonneg (e : ReadEnv) (s : Sys) (h : 0 ≤ s.p.avg) : 0 ≤ (pace e s).p.avg := by
  rw [pace_avg]
  split
  · exact le_max_left _ _
  · exact h

theorem pace_avg_upper (e : ReadEnv) (s : Sys) (h : s.p.avg ≤ 536870911) :
    (pace e s).p.avg ≤ 536870911 := by
  rw [pace_avg]
  split
  · exact max_le (by decide) (tdiv4_upper _ (wrap32_upper _))
  · exact h

theorem pace_wait (e : ReadEnv) (s : Sys) :
    (pace e s).p.wait =
      if 10 < (pace e s).p.avg then
        wrap32 ((if wrap32 (wrap32 (e.waitSend * 80) - s.p.snd) < 0 then 0 else s.p.wait)
          + (pace e s).p.avg)
      else (if wrap32 (wrap32 (e.waitSend * 80) - s.p.snd) < 0 then 0 else s.p.wait) := rfl

theorem tcpReadLoopIter_avg_nonneg (MsgHdrSize : Int) (es : List ReadEnv) :
    ∀ (s s1 : Sys), 0 ≤ s.p.avg → tcpReadLoopIter MsgHdrSize es s = .ok s1 → 0 ≤ s1.p.avg := by
  induction es with
  | nil => intro s s1 h hr; cases hr; exact h
  | cons e es ih =>
      intro s s1 h hr
      unfold tcpReadLoopIter at hr
      split at hr
      · cases hr
      · next s2 c heq =>
          cases hr
          rw [(tcpReadLoopFor_flow MsgHdrSize e s _ heq).1]
          exact pace_avg_nonneg e s h
      · next s2 heq =>
          refine ih s2 s1 ?_ hr
          rw [(tcpReadLoopFor_flow MsgHdrSize e s _ heq).1]
          exact pace_avg_nonneg e s h

theorem tcpReadLoopIter_send_ok (MsgHdrSize : Int) (es : List ReadEnv) :
    ∀ (s : Sys), (∀ e ∈ es, e.sel = LinkSel.send) →
      ∃ s1, tcpReadLoopIter MsgHdrSize es s = .ok s1 := by
  induction es with
  | nil => intro s _; exact ⟨s, rfl⟩
  | cons e es ih =>
      intro s hs
      obtain ⟨r, hr⟩ := tcpReadLoopFor_send_ok MsgHdrSize e s (hs e (by simp))
      obtain ⟨s2, c⟩ := r
      unfold tcpReadLoopIter
      rw [hr]
      cases c with
      | some c => exact ⟨s2, rfl⟩
      | none => exact ih s2 (fun e1 h1 => hs e1 (by simp [h1]))

/-- C6. Smoothed rate never negative, in 32-bit wrapping arithmetic with
truncating division: from a state with `avg ≥ 0`, after an iteration of
`tcpReadLoopFor` on any sample and clock readings `avg ≥ 0`; when
`tickDiff > 0` the new `avg` is `max(0, (3*avg + diff/tickDiff) / 4)`, when
`tickDiff ≤ 0` it is unchanged; `avg ≥ 0` also holds after every sequence of
iterations of the loop from that state, and after every sequence of iterations
of `tcpReadLoop` (which sets `avg = 20`) from any state; and the iterations
return whenever the send to the link is taken. -/
theorem tcpReadLoopFor_avg_never_negative (MsgHdrSize : Int) (s : Sys) (h : 0 ≤ s.p.avg) :
    (∀ e r, tcpReadLoopFor MsgHdrSize e s = .ok r →
      0 ≤ r.1.p.avg ∧
      (0 < wrap32 (e.now1 - s.p.tick) →
        r.1.p.avg = max 0 (Int.tdiv (wrap32 (3 * s.p.avg +
          Int.tdiv (wrap32 (wrap32 (e.waitSend * 80) - s.p.snd)) (wrap32 (e.now1 - s.p.tick)))) 4)) ∧
      (wrap32 (e.now1 - s.p.tick) ≤ 0 → r.1.p.avg = s.p.avg)) ∧
    (∀ es s1, tcpReadLoopIter MsgHdrSize es s = .ok s1 → 0 ≤ s1.p.avg) ∧
    (∀ now es s0 s1, tcpReadLoop MsgHdrSize now es s0 = .ok s1 → 0 ≤ s1.p.avg) ∧
    (∀ es, (∀ e ∈ es, e.sel = LinkSel.send) →
      ∃ s1, tcpReadLoopIter MsgHdrSize es s = .ok s1) := by
  refine ⟨?_, ?_, ?_, ?_⟩
  · intro e r hr
    have ha := (tcpReadLoopFor_flow MsgHdrSize e s r hr).1
    refine ⟨by rw [ha]; exact pace_avg_nonneg e s h, ?_, ?_⟩
    · intro ht; rw [ha, pace_avg, if_pos ht]
    · intro ht; rw [ha, pace_avg, if_neg (by omega)]
  · intro es s1 hr
    exact tcpReadLoopIter_avg_nonneg MsgHdrSize es s s1 h hr
  · intro now es s0 s1 hr
    exact tcpReadLoopIter_avg_nonneg MsgHdrSize es _ s1 (show (0 : Int) ≤ 20 by decide) hr
  · intro es hs
    exact tcpReadLoopIter_send_ok MsgHdrSize es s hs

/-- C6 at a freshly constructed connection (`avg = 0`). -/
theorem tcpReadLoopFor_avg_never_negative_witness :
    0 ≤ (newSys true 8 8).p.avg ∧
    ((∀ e r, tcpReadLoopFor 8 e (newSys true 8 8) = .ok r →
      0 ≤ r.1.p.avg ∧
      (0 < wrap32 (e.now1 - (newSys true 8 8).p.tick) →
        r.1.p.avg = max 0 (Int.tdiv (wrap32 (3 * (newSys true 8 8).p.avg +
          Int.tdiv (wrap32 (wrap32 (e.waitSend * 80) - (newSys true 8 8).p.snd))
            (wrap32 (e.now1 - (newSys true 8 8).p.tick)))) 4)) ∧
      (wrap32 (e.now1 - (newSys true 8 8).p.tick) ≤ 0 → r.1.p.avg = (newSys true 8 8).p.avg)) ∧
    (∀ es s1, tcpReadLoopIter 8 es (newSys true 8 8) = .ok s1 → 0 ≤ s1.p.avg) ∧
    (∀ now es s0 s1, tcpReadLoop 8 now es s0 = .ok s1 → 0 ≤ s1.p.avg) ∧
    (∀ es, (∀ e ∈ es, e.sel = LinkSel.send) →
      ∃ s1, tcpReadLoopIter 8 es (newSys true 8 8) = .ok s1)) :=
  ⟨by decide, tcpReadLoopFor_avg_never_negative 8 (newSys true 8 8) (by decide)⟩

/-- Runs of `tcpReadLoop` (which starts from `avg = 20`) on a growing sample,
then on one whose growth makes `3*avg + diff/tickDiff` wrap to a negative value,
then on a shrinking one: `avg` is 35, then 0 (clamped), then 0 (clamped), and
the wait is 35, 35, 0. -/
theorem tcpReadLoop_avg_examples :
    (tcpReadLoop 8 0 [⟨1, 1, 1, 5, false, [], LinkSel.send⟩] (newSys true 8 8)).toOption.map
      (fun s => (s.p.avg, s.p.wait)) = some (35, 35) ∧
    (tcpReadLoop 8 0 [⟨1, 1, 1, 5, false, [], LinkSel.send⟩,
        ⟨26843546, 2, 2, 5, false, [], LinkSel.send⟩] (newSys true 8 8)).toOption.map
      (fun s => (s.p.avg, s.p.wait)) = some (0, 35) ∧
    (tcpReadLoop 8 0 [⟨1, 1, 1, 5, false, [], LinkSel.send⟩,
        ⟨26843546, 2, 2, 5, false, [], LinkSel.send⟩,
        ⟨26843545, 3, 3, 5, false, [], LinkSel.send⟩] (newSys true 8 8)).toOption.map
      (fun s => (s.p.avg, s.p.wait)) = some (0, 0) := by
  decide

/-- In a state with `0 ≤ wait ≤ 10000` and `0 ≤ avg < 2^29` the pacing step
adds without overflow. -/
theorem tcpReadLoopFor_wait_exact (MsgHdrSize : Int) (e : ReadEnv) (s : Sys)
    (r : Sys × Option Err) (h : tcpReadLoopFor MsgHdrSize e s = .ok r)
    (w0 : 0 ≤ s.p.wait) (w1 : s.p.wait ≤ 10000) (a0 : 0 ≤ s.p.avg)
    (a1 : s.p.avg ≤ 536870911) :
    r.1.p.wait =
      (if wrap32 (wrap32 (e.waitSend * 80) - s.p.snd) < 0 then 0 else s.p.wait)
        + (if 10 < r.1.p.avg then r.1.p.avg else 0) ∧
    (r.1.p.avg ≤ 10 → r.1.p.wait ≤ s.p.wait) := by
  obtain ⟨ha, hw, _, _, _⟩ := tcpReadLoopFor_flow MsgHdrSize e s r h
  have hw2 := pace_wait e s
  rw [← ha, ← hw] at hw2
  have hup : r.1.p.avg ≤ 536870911 := by rw [ha]; exact pace_avg_upper e s a1
  have hlo : 0 ≤ r.1.p.avg := by rw [ha]; exact pace_avg_nonneg e s a0
  rw [hw2]
  by_cases h10 : 10 < r.1.p.avg
  · rw [if_pos h10, if_pos h10]
    refine ⟨?_, fun h => by omega⟩
    apply wrap32_of_range
    · split <;> omega
    · split <;> omega
  · rw [if_neg h10, if_neg h10]
    refine ⟨by omega, fun _ => ?_⟩
    split <;> omega

/-- The bounds `0 ≤ wait ≤ 10000` and `0 ≤ avg < 2^29` hold again after every
iteration of `tcpReadLoopFor` that lets the loop continue. -/
theorem tcpReadLoopFor_keeps_bounds (MsgHdrSize : Int) (e : ReadEnv) (s s1 : Sys)
    (h : tcpReadLoopFor MsgHdrSize e s = .ok (s1, none))
    (w0 : 0 ≤ s.p.wait) (w1 : s.p.wait ≤ 10000) (a0 : 0 ≤ s.p.avg)
    (a1 : s.p.avg ≤ 536870911) :
    0 ≤ s1.p.wait ∧ s1.p.wait ≤ 10000 ∧ 0 ≤ s1.p.avg ∧ s1.p.avg ≤ 536870911 := by
  obtain ⟨ha, hw, _, _, _⟩ := tcpReadLoopFor_flow MsgHdrSize e s _ h
  have hup : s1.p.avg ≤ 536870911 := by rw [ha]; exact pace_avg_upper e s a1
  have hlo : 0 ≤ s1.p.avg := by rw [ha]; exact pace_avg_nonneg e s a0
  have hx := tcpReadLoopFor_wait_exact MsgHdrSize e s _ h w0 w1 a0 a1
  refine ⟨?_, ?_, hlo, hup⟩
  · rw [hx.1]; split <;> split <;> omega
  · -- the loop goes on only if the kill-switch did not fire
    by_contra hc
    have hgt : (pace e s).p.wait > 10000 := by rw [← hw]; simpa using hc
    unfold tcpReadLoopFor at h
    simp only [NewMsgBuf] at h
    rw [if_pos (Or.inl hgt)] at h
    split at h
    · split at h <;> cases h
    · split at h <;> cases h
    · cases h

/-! ## Theorems: the kill-switch -/

/-- C5 (as stated, refuted). The kill-switch iteration (wait 10010 > 10000, the
read succeeded) returns `ErrMsgRead` and kills the connection with
`ErrMsgRead`, the very error and cause of an iteration whose read failed with
wait 0: no classification of the causes maps the first to congestion-timeout
and the second to local I/O. -/
theorem tcpReadLoopFor_kill_switch_cause_is_read_error :
    tcpReadLoopFor 8 envReadOk congested = .ok killed1 ∧
    killed1.1.p.wait = 10010 ∧ envReadOk.err = false ∧
    killed1.2 = some Err.ErrMsgRead ∧ killed1.1.p.dying = some Err.ErrMsgRead ∧
    tcpReadLoopFor 8 envReadFails
      { congested with p := { congested.p with avg := 0, wait := 0 } } = .ok failed1 ∧
    failed1.1.p.wait = 0 ∧ envReadFails.err = true ∧
    failed1.2 = some Err.ErrMsgRead ∧ failed1.1.p.dying = some Err.ErrMsgRead ∧
    ¬ ∃ classify : Err → Cause,
        killed1.1.p.dying.map classify = some Cause.congestionTimeout ∧
        failed1.1.p.dying.map classify = some Cause.localIO := by
  refine ⟨rfl, by decide, rfl, by decide, by decide, rfl, by decide, rfl, by decide,
    by decide, ?_⟩
  rintro ⟨f, h1, h2⟩
  have e1 : killed1.1.p.dying = some Err.ErrMsgRead := by decide
  have e2 : failed1.1.p.dying = some Err.ErrMsgRead := by decide
  rw [e1] at h1
  rw [e2] at h2
  simp only [Option.map_some', Option.some.injEq] at h1 h2
  rw [h1] at h2
  cases h2

/-- C5 (amended). Kill-switch: when the cumulative wait after the pacing step
exceeds 10000 and neither the connection nor the link is dying, an iteration of
`tcpReadLoopFor` (whatever the read returned) appends exactly one frame to the
link's outbound queue, a Fin frame (the header template with Type = Fin, Size
= header size); the connection is killed with `ErrMsgRead` and the iteration
returns `ErrMsgRead`, the error it also uses for a failed read.  With the send
case taken the iteration does return. -/
theorem tcpReadLoopFor_kill_switch (MsgHdrSize : Int) (e : ReadEnv) (s : Sys)
    (hw : 10000 < (pace e s).p.wait) (hp : s.p.dying = none) (hl : s.p2pc.dying = false) :
    (∃ r, tcpReadLoopFor MsgHdrSize { e with sel := LinkSel.send } s = .ok r) ∧
    ∀ r, tcpReadLoopFor MsgHdrSize e s = .ok r →
      r.1.p.wait = (pace e s).p.wait ∧
      (∃ fin, r.1.p2pc.wMsg = s.p2pc.wMsg ++ [fin] ∧
        fin.hdr = { s.p.hdr with type := MsgType.MsgTypeFin } ∧
        fin.hdr.type = MsgType.MsgTypeFin ∧ fin.Size = MsgHdrSize) ∧
      r.1.p.dying = some Err.ErrMsgRead ∧ r.2 = some Err.ErrMsgRead := by
  refine ⟨tcpReadLoopFor_send_ok MsgHdrSize _ s rfl, ?_⟩
  intro r h
  have hw2 := (tcpReadLoopFor_flow MsgHdrSize e s r h).2.1
  refine ⟨hw2, ?_⟩
  have hpd : (pace e s).p.dying = none := hp
  have hld : (pace e s).p2pc.dying = false := hl
  unfold tcpReadLoopFor at h
  simp only [NewMsgBuf] at h
  rw [if_pos (Or.inl hw)] at h
  split at h
  · simp [Dup, hpd] at h
  · simp [Dup, hld] at h
  · cases h
    refine ⟨⟨{ Id := s.nextId, hdr := { s.p.hdr with type := MsgType.MsgTypeFin },
               Size := MsgHdrSize, body := e.data }, ?_, rfl, rfl, rfl⟩, ?_, rfl⟩
    · simp [Free, Dup]; rfl
    · simp [Free, Kill, Dup, hpd]

/-- C5 (amended) at the congested connection with a successful read. -/
theorem tcpReadLoopFor_kill_switch_witness :
    (10000 < (pace envReadOk congested).p.wait ∧ congested.p.dying = none ∧
      congested.p2pc.dying = false) ∧
    ((∃ r, tcpReadLoopFor 8 { envReadOk with sel := LinkSel.send } congested = .ok r) ∧
    ∀ r, tcpReadLoopFor 8 envReadOk congested = .ok r →
      r.1.p.wait = (pace envReadOk congested).p.wait ∧
      (∃ fin, r.1.p2pc.wMsg = congested.p2pc.wMsg ++ [fin] ∧
        fin.hdr = { congested.p.hdr with type := MsgType.MsgTypeFin } ∧
        fin.hdr.type = MsgType.MsgTypeFin ∧ fin.Size = 8) ∧
      r.1.p.dying = some Err.ErrMsgRead ∧ r.2 = some Err.ErrMsgRead) :=
  ⟨⟨by decide, rfl, rfl⟩,
   tcpReadLoopFor_kill_switch 8 envReadOk congested (by decide) rfl rfl⟩

/-! ## Theorems: handshake and relay loops started -/

theorem SameCtl.refl (s : Sys) : SameCtl s s := ⟨rfl, rfl, rfl, rfl⟩

theorem SameCtl.trans {a b c : Sys} (h1 : SameCtl a b) (h2 : SameCtl b c) : SameCtl a c :=
  ⟨h2.1.trans h1.1, h2.2.1.trans h1.2.1, h2.2.2.1.trans h1.2.2.1, h2.2.2.2.trans h1.2.2.2⟩

theorem runDefers_SameCtl (dfr : List MsgBuf) (s : Sys) : SameCtl s (runDefers dfr s) := by
  induction dfr generalizing s with
  | nil => exact SameCtl.refl s
  | cons mb rest ih => exact SameCtl.trans (⟨rfl, rfl, rfl, rfl⟩ : SameCtl s (Free mb s)) (ih _)

theorem writeAllFor_SameCtl (todo : List (Option MsgBuf)) :
    ∀ (pos : Nat) (dfr : List MsgBuf) (s s1 : Sys),
      writeAllFor todo pos dfr s = .ok s1 → SameCtl s s1 := by
  induction todo with
  | nil =>
      intro pos dfr s s1 h
      simp only [writeAllFor, Except.ok.injEq] at h
      subst h
      exact SameCtl.trans ⟨rfl, rfl, rfl, rfl⟩ (runDefers_SameCtl _ _)
  | cons x todo ih =>
      intro pos dfr s s1 h
      cases x with
      | none => simp [writeAllFor] at h
      | some mb =>
          simp only [writeAllFor, Dup_p] at h
          split at h
          · cases h
          · split at h
            · have hh := ih _ _ _ _ h
              exact ⟨hh.1, hh.2.1, hh.2.2.1, hh.2.2.2⟩
            · simp only [Except.ok.injEq] at h
              subst h
              exact SameCtl.trans ⟨rfl, rfl, rfl, rfl⟩ (runDefers_SameCtl _ _)

theorem writeAll_SameCtl (s s1 : Sys) (h : writeAll s = .ok s1) : SameCtl s s1 := by
  unfold writeAll at h
  split at h
  · exact writeAllFor_SameCtl _ _ _ _ _ h
  · cases h; exact SameCtl.refl s

/-- What one `RunFor` cycle does to the number of inbound relay loops started
and to the record of dispatched frames. -/
theorem RunFor_readLoops (sel : RunSel) (s : Sys) (r : Sys × Option Err)
    (h : RunFor sel s = .ok r) :
    (r.1.readLoops = s.readLoops +
      (if sel = RunSel.recv ∧ s.p.in_.buf.head?.map (fun mb => mb.hdr.type)
          = some MsgType.MsgTypeSynOk then 1 else 0)) ∧
    r.1.readLoops + s.dispatched.count MsgType.MsgTypeSynOk
      = s.readLoops + r.1.dispatched.count MsgType.MsgTypeSynOk ∧
    r.1.p.isProxy = s.p.isProxy := by
  unfold RunFor at h
  split at h
  · split at h
    · cases h; simp
    · cases h
  · split at h
    · cases h; simp [GoDying]
    · cases h
  · split at h
    · next hb =>
        split at h
        · cases h; simp [hb]
        · cases h
    · next mb rest hb =>
        split at h
        · next hty =>
            dsimp only at h
            split at h
            · next s4 hw =>
                cases h
                have hc := writeAll_SameCtl _ _ hw
                obtain ⟨h1, _, h3, h4⟩ := hc
                simp only [Free, hb, List.head?_cons, Option.map_some', hty]
                simp only [Dup] at h1 h3 h4
                rw [h1, h3, h4]
                simp [List.count_append, hty]
            · cases h
        · next hty =>
            cases h
            simp [Free, hb, hty, List.count_append]
            omega
        · next hty =>
            cases h
            simp [Free, GoDying, hb, hty, List.count_append]
        · next hty =>
            cases h
            simp [Free, GoDying, hb, hty, List.count_append]
        · next hty1 hty2 hty3 hty4 =>
            cases h
            have hne : ¬ mb.hdr.type = MsgType.MsgTypeSynOk := hty2
            simp [Free, hb, hne, List.count_append, List.count_cons]

/-! ## Theorems: inbound relay loops started by Run -/

theorem SEND_LOOP_SameCtl (sock : Nat → List Nat → WriteRes) (real : List Nat) (size : Int) :
    ∀ (fuel i wsize : Nat) (s s1 : Sys) (w : Nat) (e : SendEnd),
      SEND_LOOP sock real size fuel i wsize s = .ok (s1, w, e) → SameCtl s s1 := by
  intro fuel
  induction fuel with
  | zero => intro i wsize s s1 w e h; simp [SEND_LOOP] at h
  | succ fuel ih =>
      intro i wsize s s1 w e h
      simp only [SEND_LOOP] at h
      split at h
      · cases h
      · split at h
        · cases h; exact ⟨rfl, rfl, rfl, rfl⟩
        · split at h
          · have hh := ih _ _ _ _ _ _ h
            exact ⟨hh.1, hh.2.1, hh.2.2.1, hh.2.2.2⟩
          · cases h; exact ⟨rfl, rfl, rfl, rfl⟩

theorem Kill_SameCtl (c : Err) (s : Sys) : SameCtl s (Kill c s) := by
  unfold Kill; cases s.p.dying <;> exact ⟨rfl, rfl, rfl, rfl⟩

theorem tcpWriteLoopFor_SameCtl (MsgHdrSize : Int) (GetReal : MsgBuf → List Nat)
    (sock : Nat → List Nat → WriteRes) (fuel : Nat) (sel : LinkSel) (s : Sys)
    (r : Sys × Option Err)
    (h : tcpWriteLoopFor MsgHdrSize GetReal sock fuel sel s = .ok r) : SameCtl s r.1 := by
  unfold tcpWriteLoopFor at h
  split at h
  · split at h
    · cases h; exact SameCtl.refl s
    · cases h
  · next mb rest hb =>
      dsimp only at h
      split at h
      · cases h
      · next s2 wsize hs =>
          cases h
          have hh := SEND_LOOP_SameCtl _ _ _ _ _ _ _ _ _ _ hs
          exact ⟨hh.1, hh.2.1, hh.2.2.1, hh.2.2.2⟩
      · next s2 wsize hs =>
          have hh := SEND_LOOP_SameCtl _ _ _ _ _ _ _ _ _ _ hs
          simp only [NewMsgBuf] at h
          split at h
          · split at h
            · cases h
              have hk := Kill_SameCtl Err.ErrMsgWrite (Dup
                { Id := s2.nextId, hdr := { s2.p.hdr with type := MsgType.MsgTypeFin },
                  Size := MsgHdrSize, body := [] }
                { s2 with p := { s2.p with hdr := { s2.p.hdr with type := MsgType.MsgTypeFin } },
                          used := fun i => if i = s2.nextId then 1 else s2.used i,
                          nextId := s2.nextId + 1 })
              exact ⟨hk.1.trans hh.1, hk.2.1.trans hh.2.1, hk.2.2.1.trans hh.2.2.1,
                hk.2.2.2.trans hh.2.2.2⟩
            · cases h
          · cases h
            have hk := Kill_SameCtl Err.ErrMsgWrite
              { (Dup
                { Id := s2.nextId, hdr := { s2.p.hdr with type := MsgType.MsgTypeFin },
                  Size := MsgHdrSize, body := [] }
                { s2 with p := { s2.p with hdr := { s2.p.hdr with type := MsgType.MsgTypeFin } },
                          used := fun i => if i = s2.nextId then 1 else s2.used i,
                          nextId := s2.nextId + 1 }) with
                p2pc := { s2.p2pc with wMsg := s2.p2pc.wMsg ++
                  [{ Id := s2.nextId, hdr := { s2.p.hdr with type := MsgType.MsgTypeFin },
                     Size := MsgHdrSize, body := [] }] } }
            exact ⟨hk.1.trans hh.1, hk.2.1.trans hh.2.1, hk.2.2.1.trans hh.2.2.1,
              hk.2.2.2.trans hh.2.2.2⟩
          · cases h

theorem deliver_SameCtl (hdr : MsgHdr) (Size : Int) (body : List Nat) (s s1 : Sys)
    (h : deliver hdr Size body s = .ok s1) : SameCtl s s1 := by
  unfold deliver at h
  split at h
  · cases h
  · split at h
    · cases h
    · simp only [NewMsgBuf, Except.ok.injEq] at h
      subst h
      exact ⟨rfl, rfl, rfl, rfl⟩

/-- The balance between inbound relay loops started and SynOk frames
dispatched is kept by every step. -/
theorem step_readLoops (MsgHdrSize : Int) (GetReal : MsgBuf → List Nat) (st : Step)
    (x y : Sys × Option Err) (h : step MsgHdrSize GetReal st x = .ok y) :
    y.1.readLoops + x.1.dispatched.count MsgType.MsgTypeSynOk
      = x.1.readLoops + y.1.dispatched.count MsgType.MsgTypeSynOk := by
  obtain ⟨s, c⟩ := x
  cases st with
  | deliver hdr Size body =>
      simp only [step] at h
      split at h
      · next s1 hd =>
          cases h
          obtain ⟨h1, _, h3, _⟩ := deliver_SameCtl _ _ _ _ _ hd
          simp only [h1, h3]
      · cases h
  | runFor sel =>
      cases c with
      | none =>
          simp only [step] at h
          exact (RunFor_readLoops sel s y h).2.1
      | some c => simp only [step, Except.ok.injEq] at h; subst h; rfl
  | writeFor sock fuel sel =>
      simp only [step] at h
      split at h
      · next s1 c1 hd =>
          cases h
          obtain ⟨h1, _, h3, _⟩ := tcpWriteLoopFor_SameCtl _ _ _ _ _ _ _ hd
          simp only at h1 h3
          simp only [h1, h3]
      · cases h

theorem steps_readLoops (MsgHdrSize : Int) (GetReal : MsgBuf → List Nat) (sts : List Step) :
    ∀ (x y : Sys × Option Err), steps MsgHdrSize GetReal sts x = .ok y →
      y.1.readLoops + x.1.dispatched.count MsgType.MsgTypeSynOk
        = x.1.readLoops + y.1.dispatched.count MsgType.MsgTypeSynOk := by
  induction sts with
  | nil => intro x y h; simp only [steps, Except.ok.injEq] at h; subst h; rfl
  | cons st rest ih =>
      intro x y h
      simp only [steps] at h
      split at h
      · next z hz =>
          have h1 := step_readLoops MsgHdrSize GetReal st x z hz
          have h2 := ih z y h
          omega
      · cases h

theorem Init_readLoops (MsgHdrSize : Int) (sel : LinkSel) (s : Sys) (r : Sys × Option Err)
    (h : Init MsgHdrSize sel s = .ok r) :
    r.1.readLoops = s.readLoops + (if s.p.isProxy then 1 else 0) ∧
    r.1.dispatched = s.dispatched := by
  unfold Init at h
  simp only [NewMsgBuf] at h
  cases sel with
  | selfDying => cases h
  | send =>
      simp only [Except.ok.injEq] at h
      subst h
      cases hp : s.p.isProxy <;> simp [Free, Dup, hp]
  | linkDying =>
      cases hd : s.p2pc.dying <;> cases hp : s.p.isProxy <;>
        simp [Dup, Free, hd, hp] at h <;> (subst h; simp)

/-- C8. Handshake by role: on a link that is not dying `Init` returns nil (the
send is the only case its `select` can take) and appends exactly one frame to
the link's outbound queue, with Size = header size, Port = tcpPort mod 2^16,
Seq = innerPort mod 2^16, and Type SynOk for the acceptor, Syn for the
initiator; it starts the outbound relay loop in both roles and the inbound
relay loop only for the acceptor.  A `RunFor` cycle starts an inbound relay
loop exactly when it receives a SynOk frame, so for an initiator the inbound
relay loops started by `Run` are as many as the SynOk frames it dispatched. -/
theorem Init_handshake_by_role (MsgHdrSize : Int) (s : Sys) (hl : s.p2pc.dying = false) :
    (∃ r, Init MsgHdrSize LinkSel.send s = .ok r) ∧
    (∀ sel r, Init MsgHdrSize sel s = .ok r →
      sel = LinkSel.send ∧ r.2 = none ∧
      (∃ mb, r.1.p2pc.wMsg = s.p2pc.wMsg ++ [mb] ∧
        mb.Size = MsgHdrSize ∧
        mb.hdr.Port = s.p.tcpPort % 65536 ∧ mb.hdr.Seq = s.p.innerPort % 65536 ∧
        mb.hdr.type = (if s.p.isProxy then MsgType.MsgTypeSynOk else MsgType.MsgTypeSyn)) ∧
      r.1.readLoops = s.readLoops + (if s.p.isProxy then 1 else 0) ∧
      r.1.writeLoops = s.writeLoops + 1) ∧
    (∀ sel s2 r, RunFor sel s2 = .ok r →
      r.1.readLoops = s2.readLoops +
        (if sel = RunSel.recv ∧ s2.p.in_.buf.head?.map (fun mb => mb.hdr.type)
            = some MsgType.MsgTypeSynOk then 1 else 0)) ∧
    (∀ GetReal sel sts r, s.p.isProxy = false → s.readLoops = 0 → s.dispatched = [] →
      Run MsgHdrSize GetReal sel sts s = .ok r →
      r.1.readLoops = r.1.dispatched.count MsgType.MsgTypeSynOk) := by
  refine ⟨?_, ?_, ?_, ?_⟩
  · simp only [Init, NewMsgBuf]
    exact ⟨_, rfl⟩
  · intro sel r h
    cases sel with
    | linkDying => cases hp : s.p.isProxy <;> simp [Init, NewMsgBuf, Dup, hl, hp] at h
    | selfDying => simp [Init, NewMsgBuf] at h
    | send =>
        simp only [Init, NewMsgBuf, Except.ok.injEq] at h
        subst h
        cases hp : s.p.isProxy with
        | true =>
            refine ⟨rfl, rfl, ⟨{ Id := s.nextId, hdr := ⟨MsgType.MsgTypeSynOk, 0,
              toUint16 s.p.tcpPort, toUint16 s.p.innerPort⟩, Size := MsgHdrSize, body := [] },
              ?_, rfl, rfl, rfl, rfl⟩, ?_, ?_⟩
            · simp [Free, Dup, hp]
            · simp [Free, Dup, hp]
            · simp [Free, Dup, hp]
        | false =>
            refine ⟨rfl, rfl, ⟨{ Id := s.nextId, hdr := ⟨MsgType.MsgTypeSyn, 0,
              toUint16 s.p.tcpPort, toUint16 s.p.innerPort⟩, Size := MsgHdrSize, body := [] },
              ?_, rfl, rfl, rfl, rfl⟩, ?_, ?_⟩
            · simp [Free, Dup, hp]
            · simp [Free, Dup, hp]
            · simp [Free, Dup, hp]
  · intro sel s2 r h
    exact (RunFor_readLoops sel s2 r h).1
  · intro GetReal sel sts r hp h0 hd h
    unfold Run at h
    split at h
    · cases h
    · next s1 e hi =>
        cases h
        obtain ⟨h1, h2⟩ := Init_readLoops _ _ _ _ hi
        simp only at h1 h2
        rw [h1, h2, h0, hd, hp]
        simp
    · next s1 hi =>
        obtain ⟨h1, h2⟩ := Init_readLoops _ _ _ _ hi
        have h3 := steps_readLoops MsgHdrSize GetReal sts _ _ h
        simp only at h1 h2 h3
        rw [h1, h2, h0, hd, hp] at h3
        simp only [List.count_nil] at h3
        simp at h3
        omega

/-- C8 at a fresh initiator and a fresh acceptor. -/
theorem Init_handshake_by_role_witness :
    ((newSys false 8 8).p2pc.dying = false ∧
      (Init 8 LinkSel.send (newSys false 8 8)).toOption.map
        (fun r => (r.1.p2pc.wMsg.map (fun mb => (mb.hdr.type, mb.Size, mb.hdr.Port, mb.hdr.Seq)),
                   r.1.readLoops, r.1.writeLoops, r.2))
        = some ([(MsgType.MsgTypeSyn, 8, 8080, 42)], 0, 1, none) ∧
      (Init 8 LinkSel.send (newSys true 8 8)).toOption.map
        (fun r => (r.1.p2pc.wMsg.map (fun mb => (mb.hdr.type, mb.Size, mb.hdr.Port, mb.hdr.Seq)),
                   r.1.readLoops, r.1.writeLoops, r.2))
        = some ([(MsgType.MsgTypeSynOk, 8, 8080, 42)], 1, 1, none)) ∧
    (∃ r, Init 8 LinkSel.send (newSys false 8 8) = .ok r) :=
  ⟨⟨rfl, by decide, by decide⟩, (Init_handshake_by_role 8 (newSys false 8 8) rfl).1⟩

/-- C10 (as stated, refuted). An acceptor, whose `Init` has started the inbound
relay loop, starts a second one when a SynOk frame is delivered to it; an
initiator to which two SynOk frames are delivered starts two. -/
theorem Run_starts_two_inbound_loops :
    (Run 8 bodyOf LinkSel.send
        [Step.deliver synOkHdr 8 [], Step.runFor RunSel.recv]
        (newSys true 8 8)).toOption.map (fun r => (r.1.readLoops, r.2)) = some (2, none) ∧
    (Run 8 bodyOf LinkSel.send
        [Step.deliver synOkHdr 8 [], Step.runFor RunSel.recv,
         Step.deliver synOkHdr 8 [], Step.runFor RunSel.recv]
        (newSys false 8 8)).toOption.map (fun r => (r.1.readLoops, r.2)) = some (2, none) ∧
    ¬ ((Run 8 bodyOf LinkSel.send
        [Step.deliver synOkHdr 8 [], Step.runFor RunSel.recv]
        (newSys true 8 8)).toOption.map (fun r => decide (r.1.readLoops ≤ 1)) = some true) := by
  decide

/-- C10 (amended). Taking `Init` and each `RunFor` cycle as the steps of the
connection, the number of inbound relay loops started is one for an acceptor,
none for an initiator, plus one for every SynOk frame dispatched: a `RunFor`
cycle that receives a SynOk frame returns nil and starts an inbound relay
loop, whatever the role and whether or not one is already running. -/
theorem Run_inbound_loops_started (MsgHdrSize : Int) (GetReal : MsgBuf → List Nat)
    (sel : LinkSel) (sts : List Step) (s : Sys) (r : Sys × Option Err)
    (h : Run MsgHdrSize GetReal sel sts s = .ok r)
    (h0 : s.readLoops = 0) (hd : s.dispatched = []) :
    r.1.readLoops = (if s.p.isProxy then 1 else 0)
      + r.1.dispatched.count MsgType.MsgTypeSynOk ∧
    (∀ (s2 : Sys) (mb : MsgBuf) (rest : List MsgBuf),
      s2.p.in_.buf = mb :: rest → mb.hdr.type = MsgType.MsgTypeSynOk →
      ∃ r2, RunFor RunSel.recv s2 = .ok r2 ∧ r2.2 = none ∧
        r2.1.readLoops = s2.readLoops + 1) := by
  constructor
  · unfold Run at h
    split at h
    · cases h
    · next s1 e hi =>
        cases h
        obtain ⟨h1, h2⟩ := Init_readLoops _ _ _ _ hi
        simp only at h1 h2
        rw [h1, h2, h0, hd]
        simp
    · next s1 hi =>
        obtain ⟨h1, h2⟩ := Init_readLoops _ _ _ _ hi
        have h3 := steps_readLoops MsgHdrSize GetReal sts _ _ h
        simp only at h1 h2 h3
        rw [h1, h2, h0, hd] at h3
        simp only [List.count_nil] at h3
        omega
  · intro s2 mb rest hb hty
    have hex : ∃ r2, RunFor RunSel.recv s2 = .ok r2 := by
      simp only [RunFor, hb, hty]
      exact ⟨_, rfl⟩
    obtain ⟨r2, hr2⟩ := hex
    refine ⟨r2, hr2, ?_, ?_⟩
    · simp only [RunFor, hb, hty, Except.ok.injEq] at hr2
      subst hr2
      rfl
    · rw [(RunFor_readLoops _ _ _ hr2).1]
      simp [hb, hty]

/-- C10 (amended) at an initiator that receives its SynOk and then a Data
frame: one inbound relay loop. -/
theorem Run_inbound_loops_started_witness :
    (okOr (newSys false 8 8, none) (Run 8 bodyOf LinkSel.send
        [Step.deliver synOkHdr 8 [], Step.runFor RunSel.recv,
         Step.deliver dataHdr 3 [1, 2, 3], Step.runFor RunSel.recv] (newSys false 8 8))).1.readLoops
      = (if (newSys false 8 8).p.isProxy then 1 else 0)
        + (okOr (newSys false 8 8, none) (Run 8 bodyOf LinkSel.send
        [Step.deliver synOkHdr 8 [], Step.runFor RunSel.recv,
         Step.deliver dataHdr 3 [1, 2, 3], Step.runFor RunSel.recv]
          (newSys false 8 8))).1.dispatched.count MsgType.MsgTypeSynOk ∧
    (okOr (newSys false 8 8, none) (Run 8 bodyOf LinkSel.send
        [Step.deliver synOkHdr 8 [], Step.runFor RunSel.recv,
         Step.deliver dataHdr 3 [1, 2, 3], Step.runFor RunSel.recv] (newSys false 8 8))).1.readLoops
      = 1 :=
  ⟨(Run_inbound_loops_started 8 bodyOf LinkSel.send
      [Step.deliver synOkHdr 8 [], Step.runFor RunSel.recv,
       Step.deliver dataHdr 3 [1, 2, 3], Step.runFor RunSel.recv] (newSys false 8 8)
      (okOr (newSys false 8 8, none) (Run 8 bodyOf LinkSel.send
        [Step.deliver synOkHdr 8 [], Step.runFor RunSel.recv,
         Step.deliver dataHdr 3 [1, 2, 3], Step.runFor RunSel.recv] (newSys false 8 8)))
      rfl rfl rfl).1, by decide⟩

/-! ## Theorems: teardown -/

@[simp] theorem freeChan_p (l : List MsgBuf) (s : Sys) : (freeChan l s).p = s.p := by
  induction l generalizing s with
  | nil => rfl
  | cons mb rest ih => simp [freeChan, ih]

theorem freeChan_frees (l : List MsgBuf) (s : Sys) :
    (freeChan l s).frees = s.frees ++ l.map (fun mb => mb.Id) := by
  induction l generalizing s with
  | nil => simp [freeChan]
  | cons mb rest ih => simp [freeChan, ih, Free]

theorem freeChan_used (l : List MsgBuf) (s : Sys) (i : Nat) :
    (freeChan l s).used i = s.used i - idCount i l := by
  induction l generalizing s with
  | nil => simp [freeChan, idCount]
  | cons mb rest ih =>
      simp only [freeChan, ih, idCount, Free, List.countP_cons]
      by_cases h : mb.Id = i
      · subst h; simp; try ring
      · have h2 : ¬ i = mb.Id := fun e => h e.symm
        simp [h, h2]

theorem freeChan_eq (l : List MsgBuf) (s : Sys) :
    freeChan l s = { s with used := fun i => s.used i - idCount i l,
                            frees := s.frees ++ l.map (fun mb => mb.Id) } := by
  have hu : (freeChan l s).used = fun i => s.used i - idCount i l :=
    funext (freeChan_used l s)
  have hf := freeChan_frees l s
  have hp := freeChan_p l s
  have hrest : (freeChan l s).p2pc = s.p2pc ∧ (freeChan l s).clientId = s.clientId ∧
      (freeChan l s).nextId = s.nextId ∧ (freeChan l s).readLoops = s.readLoops ∧
      (freeChan l s).writeLoops = s.writeLoops ∧ (freeChan l s).sleeps = s.sleeps ∧
      (freeChan l s).writes = s.writes ∧ (freeChan l s).dispatched = s.dispatched := by
    clear hu hf hp
    induction l generalizing s with
    | nil => exact ⟨rfl, rfl, rfl, rfl, rfl, rfl, rfl, rfl⟩
    | cons mb rest ih => exact ih (Free mb s)
  obtain ⟨h1, h2, h3, h4, h5, h6, h7, h8⟩ := hrest
  cases hfs : freeChan l s
  rw [hfs] at hu hf hp h1 h2 h3 h4 h5 h6 h7 h8
  simp only at hu hf hp h1 h2 h3 h4 h5 h6 h7 h8
  subst hu hf hp h1 h2 h3 h4 h5 h6 h7 h8
  rfl

theorem freeRlist_some (bs : List MsgBuf) (s : Sys) :
    freeRlist (bs.map some) s = (freeChan bs s, none) := by
  induction bs generalizing s with
  | nil => rfl
  | cons mb rest ih => simp [freeRlist, freeChan, ih]

theorem idCount_append (i : Nat) (xs ys : List MsgBuf) :
    idCount i (xs ++ ys) = idCount i xs + idCount i ys := by
  simp [idCount, List.countP_append]

/-- What `Close` does on a connection whose channels are open and whose
pending queue has no nil entry: it returns, calls `Free` once for every entry
of `in`, of `wMsg` and of `rlist`, in this order, and empties the three; a
second `Close` panics on the closed channel without a further `Free`. -/
theorem Close_releases_each_once (s : Sys) (bs : List MsgBuf)
    (h : s.p.rlist = bs.map some) (hi : s.p.in_.closed = false)
    (hw : s.p.wMsg.closed = false) :
    (Close s).2 = none ∧
    (Close s).1.frees = s.frees ++ (s.p.in_.buf ++ s.p.wMsg.buf ++ bs).map (fun mb => mb.Id) ∧
    (Close s).1.p.rlist = [] ∧ (Close s).1.p.in_.buf = [] ∧ (Close s).1.p.wMsg.buf = [] ∧
    (∀ i, (Close s).1.used i = s.used i - idCount i (s.p.in_.buf ++ s.p.wMsg.buf ++ bs)) ∧
    (Close (Close s).1).2 = some Fault.closedChan ∧
    (Close (Close s).1).1.frees = (Close s).1.frees := by
  have e1 : (Close s).2 = none := by
    simp [Close, hi, hw, h, freeRlist_some]
  have e2 : (Close s).1 =
      { freeChan bs (freeChan s.p.wMsg.buf (freeChan s.p.in_.buf s)) with
          p := { s.p with tcpClosed := true, in_ := { s.p.in_ with buf := [], closed := true },
                          wMsg := { s.p.wMsg with buf := [], closed := true }, rlist := [] } } := by
    simp [Close, hi, hw, h, freeRlist_some, freeChan_eq]
  refine ⟨e1, ?_, ?_, ?_, ?_, ?_, ?_, ?_⟩
  · rw [e2]; simp [freeChan_frees]
  · rw [e2]
  · rw [e2]
  · rw [e2]
  · intro i
    rw [e2]
    simp only [freeChan_used, idCount_append]
    ring
  · rw [e2]; simp [Close]
  · rw [e2]; simp [Close]

/-- The teardown of a connection that holds A in `in`, B in `wMsg` and C in
`rlist`, one reference each. -/
theorem Close_releases_each_once_witness :
    ((Close { pending (abc.drop 2) 1 with p := { (pending (abc.drop 2) 1).p with
        in_ := ⟨abc.take 1, 8, false⟩, wMsg := ⟨(abc.drop 1).take 1, 1, false⟩ } }).1.frees
      = [0, 1, 2]) ∧
    (Close { pending (abc.drop 2) 1 with p := { (pending (abc.drop 2) 1).p with
        in_ := ⟨abc.take 1, 8, false⟩, wMsg := ⟨(abc.drop 1).take 1, 1, false⟩ } }).2 = none :=
  ⟨by decide,
   (Close_releases_each_once
      { pending (abc.drop 2) 1 with p := { (pending (abc.drop 2) 1).p with
        in_ := ⟨abc.take 1, 8, false⟩, wMsg := ⟨(abc.drop 1).take 1, 1, false⟩ } }
      (abc.drop 2) rfl rfl rfl).1⟩

/-- C9 (failing input). An acceptor with a socket-write queue of capacity 1
runs `Init`, receives the Data frames A (buffer 1) and B (buffer 2) and
dispatches both: A goes to `wMsg`, the flush of B is refused, B stays in
`rlist` with count 2.  `Close` returns, calls `Free` once on A and once on B
and empties the queues; the count of A is then 0, but the count of B is 1 with
no holder left.  A second `Close` panics on the closed channel before any `Free`. -/
theorem Close_leaves_refused_buffer_referenced :
    Run 8 bodyOf LinkSel.send twoFrames (newSys true 8 1) = .ok (beforeClose, none) ∧
    beforeClose.p.wMsg.buf.map (fun mb => mb.Id) = [1] ∧
    beforeClose.p.rlist.map (fun x => x.map (fun mb => mb.Id)) = [some 2] ∧
    beforeClose.p.in_.buf = [] ∧
    (beforeClose.used 1, beforeClose.used 2) = (1, 2) ∧
    (Close beforeClose).2 = none ∧
    (Close beforeClose).1.frees = beforeClose.frees ++ [1, 2] ∧
    (Close beforeClose).1.p.rlist = [] ∧ (Close beforeClose).1.p.wMsg.buf = [] ∧
    ((Close beforeClose).1.used 1, (Close beforeClose).1.used 2) = (0, 1) ∧
    (Close (Close beforeClose).1).2 = some Fault.closedChan ∧
    (Close (Close beforeClose).1).1.frees = (Close beforeClose).1.frees := by
  refine ⟨rfl, ?_, ?_, ?_, ?_, ?_, ?_, ?_, ?_, ?_, ?_, ?_⟩ <;> decide

/-! ## Theorems: the queues in the states reached by Run -/

theorem writeAllFor_in (todo : List (Option MsgBuf)) :
    ∀ (pos : Nat) (dfr : List MsgBuf) (s s1 : Sys),
      writeAllFor todo pos dfr s = .ok s1 → s1.p.in_ = s.p.in_ := by
  induction todo with
  | nil =>
      intro pos dfr s s1 h
      simp only [writeAllFor, Except.ok.injEq] at h
      subst h
      simp
  | cons x todo ih =>
      intro pos dfr s s1 h
      cases x with
      | none => simp [writeAllFor] at h
      | some mb =>
          simp only [writeAllFor, Dup_p] at h
          split at h
          · cases h
          · split at h
            · have hh := ih _ _ _ _ h
              exact hh
            · simp only [Except.ok.injEq] at h
              subst h
              simp

theorem writeAll_in (s s1 : Sys) (h : writeAll s = .ok s1) : s1.p.in_ = s.p.in_ := by
  unfold writeAll at h
  split at h
  · exact writeAllFor_in _ _ _ _ _ h
  · cases h; rfl

theorem SEND_LOOP_p (sock : Nat → List Nat → WriteRes) (real : List Nat) (size : Int) :
    ∀ (fuel i wsize : Nat) (s s1 : Sys) (w : Nat) (e : SendEnd),
      SEND_LOOP sock real size fuel i wsize s = .ok (s1, w, e) → s1.p = s.p := by
  intro fuel
  induction fuel with
  | zero => intro i wsize s s1 w e h; simp [SEND_LOOP] at h
  | succ fuel ih =>
      intro i wsize s s1 w e h
      simp only [SEND_LOOP] at h
      split at h
      · cases h
      · split at h
        · cases h; rfl
        · split at h
          · have hh := ih _ _ _ _ _ _ h
            exact hh
          · cases h; rfl

@[simp] theorem Kill_rlist (c : Err) (s : Sys) : (Kill c s).p.rlist = s.p.rlist := by
  unfold Kill; cases s.p.dying <;> rfl

@[simp] theorem Kill_wMsg (c : Err) (s : Sys) : (Kill c s).p.wMsg = s.p.wMsg := by
  unfold Kill; cases s.p.dying <;> rfl

@[simp] theorem Kill_in (c : Err) (s : Sys) : (Kill c s).p.in_ = s.p.in_ := by
  unfold Kill; cases s.p.dying <;> rfl

theorem tcpWriteLoopFor_QueuesOk (MsgHdrSize : Int) (GetReal : MsgBuf → List Nat)
    (sock : Nat → List Nat → WriteRes) (fuel : Nat) (sel : LinkSel) (s : Sys)
    (r : Sys × Option Err)
    (h : tcpWriteLoopFor MsgHdrSize GetReal sock fuel sel s = .ok r) (hq : QueuesOk s) :
    QueuesOk r.1 := by
  obtain ⟨⟨bs, hb⟩, hw, hi⟩ := hq
  unfold tcpWriteLoopFor at h
  split at h
  · split at h
    · cases h; exact ⟨⟨bs, hb⟩, hw, hi⟩
    · cases h
  · next mb rest hbuf =>
      dsimp only at h
      split at h
      · cases h
      · next s2 wsize hs =>
          cases h
          have hp := SEND_LOOP_p _ _ _ _ _ _ _ _ _ _ hs
          refine ⟨⟨bs, ?_⟩, ?_, ?_⟩
          · simp [Free, hp, hb]
          · simp [Free, hp, hw]
          · simp [Free, hp, hi]
      · next s2 wsize hs =>
          have hp := SEND_LOOP_p _ _ _ _ _ _ _ _ _ _ hs
          simp only [NewMsgBuf] at h
          split at h
          · split at h
            · cases h
              refine ⟨⟨bs, ?_⟩, ?_, ?_⟩
              · simp [Free, Dup, hp, hb]
              · simp [Free, Dup, hp, hw]
              · simp [Free, Dup, hp, hi]
            · cases h
          · cases h
            refine ⟨⟨bs, ?_⟩, ?_, ?_⟩
            · simp [Free, Dup, hp, hb]
            · simp [Free, Dup, hp, hw]
            · simp [Free, Dup, hp, hi]
          · cases h

theorem deliver_QueuesOk (hdr : MsgHdr) (Size : Int) (body : List Nat) (s s1 : Sys)
    (h : deliver hdr Size body s = .ok s1) (hq : QueuesOk s) : QueuesOk s1 := by
  obtain ⟨⟨bs, hb⟩, hw, hi⟩ := hq
  unfold deliver at h
  split at h
  · cases h
  · split at h
    · cases h
    · simp only [NewMsgBuf, Except.ok.injEq] at h
      subst h
      exact ⟨⟨bs, hb⟩, hw, hi⟩

theorem RunFor_QueuesOk (sel : RunSel) (s : Sys) (r : Sys × Option Err)
    (h : RunFor sel s = .ok r) (hq : QueuesOk s) : QueuesOk r.1 := by
  obtain ⟨⟨bs, hb⟩, hw, hi⟩ := hq
  unfold RunFor at h
  split at h
  · split at h
    · cases h; exact ⟨⟨bs, hb⟩, hw, hi⟩
    · cases h
  · split at h
    · cases h; exact ⟨⟨bs, hb⟩, hw, hi⟩
    · cases h
  · split at h
    · split at h
      · cases h; exact ⟨⟨bs, hb⟩, hw, hi⟩
      · cases h
    · next mb rest hbuf =>
        split at h
        · dsimp only at h
          split at h
          · next s4 hwa =>
              cases h
              have hs3 : ∃ s3, writeAll s3 = .ok s4 ∧ s3.p.rlist = (bs ++ [mb]).map some ∧
                  s3.p.wMsg.closed = false ∧ s3.p.in_.closed = false :=
                ⟨_, hwa, by simp [Dup, hb], by simpa [Dup] using hw, by simpa [Dup] using hi⟩
              obtain ⟨s3, hrun, hr3, hw3, hi3⟩ := hs3
              obtain ⟨s5, h1, _, h3, _, h5, _⟩ := writeAll_spec s3 (bs ++ [mb]) hr3 hw3
              rw [hrun] at h1
              cases h1
              refine ⟨⟨_, h3⟩, h5, ?_⟩
              have hin := writeAll_in _ _ hrun
              show s4.p.in_.closed = false
              rw [hin]
              exact hi3
          · cases h
        · cases h; exact ⟨⟨bs, hb⟩, hw, hi⟩
        · cases h; exact ⟨⟨bs, hb⟩, hw, hi⟩
        · cases h; exact ⟨⟨bs, hb⟩, hw, hi⟩
        · cases h; exact ⟨⟨bs, hb⟩, hw, hi⟩

theorem steps_QueuesOk (MsgHdrSize : Int) (GetReal : MsgBuf → List Nat) (sts : List Step) :
    ∀ (x y : Sys × Option Err), steps MsgHdrSize GetReal sts x = .ok y →
      QueuesOk x.1 → QueuesOk y.1 := by
  induction sts with
  | nil => intro x y h hq; simp only [steps, Except.ok.injEq] at h; subst h; exact hq
  | cons st rest ih =>
      intro x y h hq
      simp only [steps] at h
      split at h
      · next z hz =>
          refine ih z y h ?_
          obtain ⟨s, c⟩ := x
          cases st with
          | deliver hdr Size body =>
              simp only [step] at hz
              split at hz
              · next s1 hd => cases hz; exact deliver_QueuesOk _ _ _ _ _ hd hq
              · cases hz
          | runFor sel =>
              cases c with
              | none => simp only [step] at hz; exact RunFor_QueuesOk _ _ _ hz hq
              | some c => simp only [step, Except.ok.injEq] at hz; subst hz; exact hq
          | writeFor sock fuel sel =>
              simp only [step] at hz
              split at hz
              · next s1 c1 hd =>
                  cases hz
                  exact tcpWriteLoopFor_QueuesOk _ _ _ _ _ _ (s1, c1) hd hq
              · cases hz
      · cases h

theorem Init_QueuesOk (MsgHdrSize : Int) (sel : LinkSel) (s : Sys) (r : Sys × Option Err)
    (h : Init MsgHdrSize sel s = .ok r) (hq : QueuesOk s) : QueuesOk r.1 := by
  obtain ⟨⟨bs, hb⟩, hw, hi⟩ := hq
  unfold Init at h
  simp only [NewMsgBuf] at h
  cases sel with
  | selfDying => cases h
  | send =>
      simp only [Except.ok.injEq] at h
      subst h
      cases hp : s.p.isProxy <;> exact ⟨⟨bs, by simp [Free, Dup, hp, hb]⟩,
        by simp [Free, Dup, hp, hw], by simp [Free, Dup, hp, hi]⟩
  | linkDying =>
      cases hd : s.p2pc.dying <;> cases hp : s.p.isProxy <;>
        simp [Dup, Free, hd, hp] at h <;>
        (subst h; exact ⟨⟨bs, by simp [hb]⟩, by simp [hw], by simp [hi]⟩)

/-- In every state that `Run` reaches from a connection with open channels and
a pending queue without nil entries, `Close` returns without dereferencing a
nil entry, calls `Free` once for every entry of the three queues and leaves
them empty, and a second `Close` panics before any `Free`. -/
theorem Run_then_Close (MsgHdrSize : Int) (GetReal : MsgBuf → List Nat) (sel : LinkSel)
    (sts : List Step) (s : Sys) (r : Sys × Option Err)
    (h : Run MsgHdrSize GetReal sel sts s = .ok r) (hq : QueuesOk s) :
    ∃ bs : List MsgBuf, r.1.p.rlist = bs.map some ∧
      (Close r.1).2 = none ∧
      (Close r.1).1.frees
        = r.1.frees ++ (r.1.p.in_.buf ++ r.1.p.wMsg.buf ++ bs).map (fun mb => mb.Id) ∧
      (Close r.1).1.p.rlist = [] ∧ (Close r.1).1.p.in_.buf = [] ∧
      (Close r.1).1.p.wMsg.buf = [] ∧
      (Close (Close r.1).1).2 = some Fault.closedChan ∧
      (Close (Close r.1).1).1.frees = (Close r.1).1.frees := by
  have hr : QueuesOk r.1 := by
    unfold Run at h
    split at h
    · cases h
    · next s1 e hi => cases h; exact Init_QueuesOk _ _ _ _ hi hq
    · next s1 hi => exact steps_QueuesOk _ _ _ _ _ h (Init_QueuesOk _ _ _ _ hi hq)
  obtain ⟨⟨bs, hb⟩, hw, hi⟩ := hr
  obtain ⟨h1, h2, h3, h4, h5, _, h7, h8⟩ := Close_releases_each_once r.1 bs hb hi hw
  exact ⟨bs, hb, h1, h2, h3, h4, h5, h7, h8⟩

/-- The teardown after the run of the example: `Close` returns and releases
A and B once each. -/
theorem Run_then_Close_witness :
    ∃ bs : List MsgBuf, beforeClose.p.rlist = bs.map some ∧
      (Close beforeClose).2 = none ∧
      (Close beforeClose).1.frees
        = beforeClose.frees ++
          (beforeClose.p.in_.buf ++ beforeClose.p.wMsg.buf ++ bs).map (fun mb => mb.Id) ∧
      (Close beforeClose).1.p.rlist = [] ∧ (Close beforeClose).1.p.in_.buf = [] ∧
      (Close beforeClose).1.p.wMsg.buf = [] ∧
      (Close (Close beforeClose).1).2 = some Fault.closedChan ∧
      (Close (Close beforeClose).1).1.frees = (Close beforeClose).1.frees :=
  Run_then_Close 8 bodyOf LinkSel.send twoFrames (newSys true 8 1) (beforeClose, none) rfl
    ⟨⟨[], rfl⟩, rfl, rfl⟩

end Koolnet
